import Mathlib

/-!
# BernMiner-xelis: the mining orchestration core of `main.go`

A shallow embedding of the Stratum miner in `src/main.go`:

* byte strings are `List Nat` (each element a byte value), `uint64` values are
  `Nat` reduced modulo `2 ^ 64` wherever the Go code can wrap;
* `math/big` integers are `Nat` (every `big.Int` of the program is built from
  `Lsh(1, 256)`, `SetUint64`, `SetBytes` and `Div`, hence non-negative), and
  `big.Int.Div` by zero is a run-time panic, modelled by `none`;
* the router loop of `RunMining` is a step function on an explicit state;
* the `select` loop of `mineWorker` is a step function driven by the event the
  `select` picks;
* `encoding/json`, the hash function `xelishash.XelisHashV2` and the
  implementation-dependent part of the float conversion are parameters.
-/

namespace BernMiner

/-! ## Bytes and machine integers -/

/-- The modulus of `uint64` arithmetic. -/
def U64 : Nat := 2 ^ 64

/-- Byte `k` (little-endian position) of a number. -/
def byteAt (v k : Nat) : Nat := (v / 256 ^ k) % 256

/-- `binary.LittleEndian.PutUint64(nonce, v)` on an 8-byte slice: the resulting
eight bytes, least significant first. -/
def putUint64LE (v : Nat) : List Nat :=
  [byteAt v 0, byteAt v 1, byteAt v 2, byteAt v 3, byteAt v 4, byteAt v 5, byteAt v 6, byteAt v 7]

/-- `new(big.Int).SetBytes(b)`: the bytes read as a big-endian unsigned integer. -/
def setBytes (b : List Nat) : Nat := b.foldl (fun acc x => acc * 256 + x) 0

/-- `big.Int.Div(x, y)`: Euclidean quotient, and a run-time panic
(division by zero) when `y = 0`. -/
def bigDiv (x y : Nat) : Option Nat := if y = 0 then none else some (x / y)

/-- `new(big.Int).Lsh(big.NewInt(1), 256)`. -/
def lsh1_256 : Nat := 1 * 2 ^ 256

/-- Truncation towards zero of the exact value of a finite `float64`. -/
def truncRat (v : ℚ) : Int := if 0 ≤ v then Rat.floor v else -Rat.floor (-v)

/-- Go conversion `uint64(d)` of a `float64`. The fraction is discarded; when the
truncated value is not representable in `uint64` the Go specification leaves the
result to the implementation, which is the parameter `impl`. A JSON number decoded
by `encoding/json` is always a finite `float64`, so its exact value is a rational. -/
def uint64OfFloat (impl : ℚ → Nat) (v : ℚ) : Nat :=
  if 0 ≤ truncRat v ∧ truncRat v < 2 ^ 64 then (truncRat v).toNat else impl v % U64

/-! ## `encoding/hex` -/

/-- The value of one hexadecimal digit (`fromHexChar`), both cases accepted. -/
def fromHexChar (c : Char) : Option Nat :=
  if '0'.toNat ≤ c.toNat ∧ c.toNat ≤ '9'.toNat then some (c.toNat - '0'.toNat)
  else if 'a'.toNat ≤ c.toNat ∧ c.toNat ≤ 'f'.toNat then some (c.toNat - 'a'.toNat + 10)
  else if 'A'.toNat ≤ c.toNat ∧ c.toNat ≤ 'F'.toNat then some (c.toNat - 'A'.toNat + 10)
  else none

/-- Decoding of a list of hexadecimal characters, two per byte;
`none` is the error of `hex.DecodeString` (odd length or a non-hex character). -/
def hexDecodeChars : List Char → Option (List Nat)
  | [] => some []
  | [_] => none
  | a :: b :: rest =>
    match fromHexChar a, fromHexChar b, hexDecodeChars rest with
    | some x, some y, some bs => some ((x * 16 + y) :: bs)
    | _, _, _ => none

/-- `hex.DecodeString(s)`, with the error case as `none`. -/
def hexDecodeString (s : String) : Option (List Nat) := hexDecodeChars s.toList

/-- The lower-case hexadecimal digit of a value below 16. -/
def hexDigit (n : Nat) : Char :=
  if n < 10 then Char.ofNat ('0'.toNat + n) else Char.ofNat ('a'.toNat + (n - 10))

/-- `hex.EncodeToString(b)`: two lower-case digits per byte. -/
def hexEncodeToString (b : List Nat) : String :=
  String.mk (b.flatMap (fun x => [hexDigit (x / 16 % 16), hexDigit (x % 16)]))

/-! ## `strings.Contains` -/

/-- Whether the second list starts the first one. -/
def startsWithChars : List Char → List Char → Bool
  | _, [] => true
  | [], _ :: _ => false
  | c :: cs, p :: ps => c == p && startsWithChars cs ps

/-- Whether the second list occurs as a contiguous block of the first one. -/
def containsChars : List Char → List Char → Bool
  | [], sub => sub.isEmpty
  | c :: cs, sub => startsWithChars (c :: cs) sub || containsChars cs sub

/-- `strings.Contains(s, sub)`. The needles used by the router are ASCII, for which
searching characters and searching bytes agree. -/
def stringsContains (s sub : String) : Bool := containsChars s.toList sub.toList

/-- The predicate `unicode.IsSpace`. -/
def isSpace (c : Char) : Bool :=
  let n := c.toNat
  (9 ≤ n && n ≤ 13) || n == 32 || n == 0x85 || n == 0xA0 || n == 0x1680 ||
    (0x2000 ≤ n && n ≤ 0x200A) || n == 0x2028 || n == 0x2029 || n == 0x202F ||
    n == 0x205F || n == 0x3000

/-- `strings.TrimSpace(s)`: leading and trailing white space removed. -/
def trimSpace (s : String) : String :=
  String.mk ((s.toList.dropWhile isSpace).reverse.dropWhile isSpace).reverse

/-! ## Protocol session: `StratumClient.ReadLine` and the line-reading goroutine -/

/-- The error value returned by `bufio.Reader.ReadString`: `io.EOF` or another error. -/
inductive ReadErr where
  | eof
  | other (msg : String)
  deriving DecidableEq

/-- The result of one call `s.reader.ReadString('\n')`: the data read and the error
(`none` is Go `nil`). -/
structure ReadResult where
  line : String
  err : Option ReadErr
  deriving DecidableEq

/-- `StratumClient.ReadLine`, as a function of what the buffered read returned. -/
def ReadLine (r : ReadResult) : String × Option ReadErr :=
  match r.err with
  | some e =>
    if e = ReadErr.eof then (trimSpace r.line, none)
    else (trimSpace r.line, some e)
  | none => (trimSpace r.line, none)

/-- The line-reading goroutine of `RunMining`: `reads k` is what the `k`-th buffered
read returns, `chan` the lines pushed to `responseChan` so far (the channel is taken
as never full). The result is the channel content and whether the goroutine has
returned within `fuel` iterations. -/
def readLoop (reads : Nat → ReadResult) : Nat → Nat → List String → List String × Bool
  | 0, _, chan => (chan, false)
  | fuel + 1, k, chan =>
    match ReadLine (reads k) with
    | (_, some _) => (chan, true)
    | (line, none) =>
      readLoop reads fuel (k + 1) (if line.length > 0 then chan ++ [line] else chan)

/-! ## Statistics -/

/-- The counters of `MiningStats`; `startTime` is a clock reading. -/
structure MiningStats where
  hashCount : Nat
  shareFound : Nat
  shareAccept : Nat
  shareReject : Nat
  startTime : Nat
  deriving DecidableEq

/-- `atomic.AddUint64(&m.hashCount, count)`. -/
def MiningStats.AddHash (m : MiningStats) (count : Nat) : MiningStats :=
  { m with hashCount := (m.hashCount + count) % U64 }

/-- `atomic.AddUint64(&m.shareFound, 1)`. -/
def MiningStats.AddShare (m : MiningStats) : MiningStats :=
  { m with shareFound := (m.shareFound + 1) % U64 }

/-- `atomic.AddUint64(&m.shareAccept, 1)`. -/
def MiningStats.AddAccept (m : MiningStats) : MiningStats :=
  { m with shareAccept := (m.shareAccept + 1) % U64 }

/-- `atomic.AddUint64(&m.shareReject, 1)`. -/
def MiningStats.AddReject (m : MiningStats) : MiningStats :=
  { m with shareReject := (m.shareReject + 1) % U64 }

/-! ## Jobs, sessions and the worker loop -/

/-- The Go struct `MiningJob`. -/
structure MiningJob where
  jobID : String
  timestamp : List Nat
  headerHash : List Nat
  target : Nat
  deriving DecidableEq

/-- The Go struct `SessionInfo`. -/
structure SessionInfo where
  extraNonce : List Nat
  publicKey : List Nat
  deriving DecidableEq

/-- The map handed to `json.Marshal` for a share submission. -/
structure SubmitData where
  id : Nat
  method : String
  params : List String
  deriving DecidableEq

/-- A call a worker makes on the shared objects (`stats` and `client`). -/
inductive Call where
  | addHash (count : Nat)
  | addShare
  | send (data : SubmitData)
  deriving DecidableEq

/-- Effect of one call on the statistics. -/
def MiningStats.applyCall (m : MiningStats) : Call → MiningStats
  | .addHash count => m.AddHash count
  | .addShare => m.AddShare
  | .send _ => m

/-- Effect of a sequence of calls on the statistics. -/
def MiningStats.applyCalls (m : MiningStats) (cs : List Call) : MiningStats :=
  cs.foldl MiningStats.applyCall m

/-- The amounts passed to `AddHash` in a sequence of calls. -/
def addedHashes : List Call → List Nat
  | [] => []
  | .addHash count :: cs => count :: addedHashes cs
  | _ :: cs => addedHashes cs

/-- The submissions sent in a sequence of calls. -/
def sentData : List Call → List SubmitData
  | [] => []
  | .send d :: cs => d :: sentData cs
  | _ :: cs => sentData cs

/-- Go `copy(dst[lo:hi], src)` for `lo ≤ hi ≤ len(dst)`: the first
`min (hi - lo) (len src)` bytes of `src` overwrite `dst` from offset `lo`. -/
def copyInto (dst : List Nat) (lo hi : Nat) (src : List Nat) : List Nat :=
  dst.take lo ++ src.take (hi - lo) ++ dst.drop (lo + min (hi - lo) src.length)

/-- The 112-byte `minerWork` buffer built in every iteration of `mineWorker`. -/
def minerWork (job : MiningJob) (session : SessionInfo) (nonce : List Nat) : List Nat :=
  let b0 := List.replicate 112 0
  let b1 := copyInto b0 0 32 job.headerHash
  let b2 := copyInto b1 32 40 job.timestamp
  let b3 := copyInto b2 40 48 nonce
  let b4 := copyInto b3 48 80 session.extraNonce
  copyInto b4 80 112 session.publicKey

/-- The value `(uint64(threadID) << 56) | nonceCounter` written into the nonce. -/
def nonceValue (threadID nonceCounter : Nat) : Nat :=
  ((threadID <<< 56) % U64) ||| nonceCounter

/-- The local variables of a running `mineWorker`. -/
structure WorkerState (Pad : Type) where
  scratchpad : Pad
  nonce : List Nat
  hashCount : Nat
  nonceCounter : Nat
  returned : Bool

/-- The case of the `select` statement that runs in one loop iteration. -/
inductive Select where
  | ctxDone
  | tickerC
  | dflt
  deriving DecidableEq

/-- The state of `mineWorker` when it enters its loop. -/
def mineWorkerInit {Pad : Type} (threadID : Nat) (pad : Pad) : WorkerState Pad :=
  { scratchpad := pad
    nonce := putUint64LE ((threadID <<< 56) % U64)
    hashCount := 0
    nonceCounter := 0
    returned := false }

/-- One iteration of the loop of `mineWorker`, given the `select` case taken;
`hash` is `xelishash.XelisHashV2` with its scratchpad. The result is the new local
state and the calls made on `stats` and `client`, in program order. A worker that
has returned takes no further step. -/
def mineWorkerStep {Pad : Type} (hash : List Nat → Pad → List Nat × Pad) (threadID : Nat)
    (job : MiningJob) (session : SessionInfo) (worker : String)
    (w : WorkerState Pad) (ev : Select) : WorkerState Pad × List Call :=
  if w.returned then (w, [])
  else
    match ev with
    | .ctxDone => ({ w with returned := true }, [Call.addHash w.hashCount])
    | .tickerC => ({ w with hashCount := 0 }, [Call.addHash w.hashCount])
    | .dflt =>
      let nonceCounter := (w.nonceCounter + 1) % U64
      let nonce := putUint64LE (nonceValue threadID nonceCounter)
      let out := hash (minerWork job session nonce) w.scratchpad
      let hashInt := setBytes out.1
      let hashCount := (w.hashCount + 1) % U64
      let w1 : WorkerState Pad :=
        { scratchpad := out.2, nonce := nonce, hashCount := hashCount,
          nonceCounter := nonceCounter, returned := false }
      if hashInt ≤ job.target then
        (w1, [Call.addShare,
              Call.send { id := 4, method := "mining.submit",
                          params := [worker, job.jobID, hexEncodeToString nonce] }])
      else (w1, [])

/-- The loop of `mineWorker` driven through a sequence of `select` outcomes:
final local state and all calls made, in order. -/
def mineWorkerRun {Pad : Type} (hash : List Nat → Pad → List Nat × Pad) (threadID : Nat)
    (job : MiningJob) (session : SessionInfo) (worker : String) :
    WorkerState Pad → List Select → WorkerState Pad × List Call
  | w, [] => (w, [])
  | w, ev :: evs =>
    let r := mineWorkerStep hash threadID job session worker w ev
    let r2 := mineWorkerRun hash threadID job session worker r.1 evs
    (r2.1, r.2 ++ r2.2)

/-! ## Message router: the main loop of `RunMining` -/

/-- A value decoded by `encoding/json` into an `interface{}`; `null` is Go `nil`,
a number is the exact value of the decoded `float64`. -/
inductive JValue where
  | null
  | bool (b : Bool)
  | num (v : ℚ)
  | str (s : String)
  | arr (xs : List JValue)
  | obj (kvs : List (String × JValue))

/-- The comma-ok type assertion `x, _ := v.(string)`: the string, or `""`. -/
def JValue.assertString : JValue → String
  | .str s => s
  | _ => ""

/-- The anonymous struct `submitResp` filled by `json.Unmarshal`. -/
structure SubmitResp where
  ID : Int
  Result : JValue
  Error : JValue

/-- The anonymous structs `diffMsg` and `notify` filled by `json.Unmarshal`. -/
structure MethodMsg where
  Method : String
  Params : List JValue

/-- What the program takes from its platform: the number of CPUs, the
implementation-dependent results of `uint64(d)`, and `json.Unmarshal` into the two
struct shapes used by the router (`none` is a non-nil error). -/
structure Env where
  numThreads : Nat
  floatToUint64 : ℚ → Nat
  unmarshalSubmit : String → Option SubmitResp
  unmarshalMsg : String → Option MethodMsg

/-- A goroutine started by `go mineWorker(ctx, t, currentJob, ...)`. -/
structure Worker where
  threadID : Nat
  job : MiningJob
  deriving DecidableEq

/-- A context made by `context.WithCancel` together with the workers started on it. -/
structure Generation where
  cancelled : Bool
  workers : List Worker
  deriving DecidableEq

/-- The variables of `RunMining` that the router loop reads and writes.
`cancelMining` is the stored cancel function, identified by the position of its
context in `generations`; `generations` lists every context created so far. -/
structure RouterState where
  difficulty : Nat
  target : Nat
  cancelMining : Option Nat
  currentJob : Option MiningJob
  stats : MiningStats
  generations : List Generation
  deriving DecidableEq

/-- The state in which `RunMining` enters its router loop: difficulty 1 and the
target computed from it (`none` if that division panicked). -/
def routerInit (startTime : Nat) : Option RouterState :=
  let difficulty := 1
  match bigDiv lsh1_256 difficulty with
  | none => none
  | some target =>
    some { difficulty := difficulty
           target := target
           cancelMining := none
           currentJob := none
           stats := { hashCount := 0, shareFound := 0, shareAccept := 0, shareReject := 0,
                      startTime := startTime }
           generations := [] }

/-- The branch of the router for a line containing the submit marker. -/
def handleSubmitResult (env : Env) (line : String) (s : RouterState) : RouterState :=
  match env.unmarshalSubmit line with
  | none => s
  | some r =>
    match r.Error with
    | .null => { s with stats := s.stats.AddAccept }
    | _ => { s with stats := s.stats.AddReject }

/-- The branch of the router for a line containing the set_difficulty marker;
`none` is the panic of `target.Div` on a zero difficulty. -/
def handleSetDifficulty (env : Env) (line : String) (s : RouterState) : Option RouterState :=
  match env.unmarshalMsg line with
  | none => some s
  | some m =>
    match m.Params with
    | .num d :: _ =>
      let difficulty := uint64OfFloat env.floatToUint64 d
      match bigDiv lsh1_256 difficulty with
      | none => none
      | some target => some { s with difficulty := difficulty, target := target }
    | _ => some s

/-- Calling the cancel function of context `i`. -/
def cancelCtx (gens : List Generation) (i : Nat) : List Generation :=
  gens.modify (fun g => { g with cancelled := true }) i

/-- The statement `if cancelMining != nil { cancelMining() }`. -/
def cancelOld (s : RouterState) : RouterState :=
  match s.cancelMining with
  | none => s
  | some i => { s with generations := cancelCtx s.generations i }

/-- The statements `ctx, cancel := context.WithCancel(...)`; `cancelMining = cancel`:
a fresh live context, returned with the new state. -/
def withCancel (s : RouterState) : Nat × RouterState :=
  (s.generations.length,
   { s with cancelMining := some s.generations.length
            generations := s.generations ++ [{ cancelled := false, workers := [] }] })

/-- The statement `go mineWorker(ctx, t, currentJob, ...)`. -/
def goMineWorker (ctx t : Nat) (job : MiningJob) (s : RouterState) : RouterState :=
  { s with generations :=
      s.generations.modify (fun g => { g with workers := g.workers ++ [{ threadID := t, job := job }] }) ctx }

/-- The loop `for t := 0; t < numThreads; t++ { go mineWorker(...) }`, started at `t`
with `n` iterations left. -/
def spawnLoop (ctx : Nat) (job : MiningJob) : Nat → Nat → RouterState → RouterState
  | 0, _, s => s
  | n + 1, t, s => spawnLoop ctx job n (t + 1) (goMineWorker ctx t job s)

/-- The part of the notify branch that runs once the parameters are decoded:
cancel the old context, make a new one, store the new job, start the workers. -/
def startJob (numThreads : Nat) (jobID : String) (timestampBytes headerBytes : List Nat)
    (s : RouterState) : RouterState :=
  let s1 := cancelOld s
  let c := withCancel s1
  let job : MiningJob :=
    { jobID := jobID, timestamp := timestampBytes, headerHash := headerBytes,
      target := c.2.target }
  let s3 := { c.2 with currentJob := some job }
  spawnLoop c.1 job numThreads 0 s3

/-- The branch of the router for a line containing the notify marker. -/
def handleNotify (env : Env) (line : String) (s : RouterState) : RouterState :=
  match env.unmarshalMsg line with
  | none => s
  | some m =>
    match m.Params with
    | p0 :: p1 :: p2 :: _ =>
      let jobID := p0.assertString
      let timestampHex := p1.assertString
      let headerHashHex := p2.assertString
      match hexDecodeString timestampHex with
      | none => s
      | some timestampBytes =>
        match hexDecodeString headerHashHex with
        | none => s
        | some headerBytes => startJob env.numThreads jobID timestampBytes headerBytes s
    | _ => s

/-- The text searched for to recognise a submit result. -/
def submitMarker : String := "\"id\":4"

/-- The text searched for to recognise a difficulty change. -/
def difficultyMarker : String := "\"method\":\"mining.set_difficulty\""

/-- The text searched for to recognise a new job. -/
def notifyMarker : String := "\"method\":\"mining.notify\""

/-- One iteration of `for line := range responseChan`; `none` is a panic. -/
def processLine (env : Env) (s : RouterState) (line : String) : Option RouterState :=
  if stringsContains line submitMarker then some (handleSubmitResult env line s)
  else if stringsContains line difficultyMarker then handleSetDifficulty env line s
  else if stringsContains line notifyMarker then some (handleNotify env line s)
  else some s

/-- The router loop over the lines received: the state when the loop stops and
whether it stopped by a panic (the remaining lines are then never processed). -/
def routerLoop (env : Env) : RouterState → List String → RouterState × Bool
  | s, [] => (s, false)
  | s, line :: rest =>
    match processLine env s line with
    | none => (s, true)
    | some s1 => routerLoop env s1 rest

end BernMiner

namespace BernMiner

/-! ## Sample pool traffic

Concrete lines, with what `json.Unmarshal` yields for them, used to evaluate the
router on explicit inputs. -/

/-- A difficulty change to 1000, as a pool sends it. -/
def sampleDifficultyLine : String :=
  "\x7b\"id\":null,\"method\":\"mining.set_difficulty\",\"params\":[1000]\x7d"

/-- A difficulty change to 0. -/
def zeroDifficultyLine : String :=
  "\x7b\"id\":null,\"method\":\"mining.set_difficulty\",\"params\":[0]\x7d"

/-- A difficulty change to 2. -/
def twoDifficultyLine : String :=
  "\x7b\"id\":null,\"method\":\"mining.set_difficulty\",\"params\":[2]\x7d"

/-- A difficulty change to `2^53 + 1`, an integer that is not a `float64` value;
`encoding/json` decodes it to the nearest `float64`, which is `2^53`. -/
def oddDifficultyLine : String :=
  "\x7b\"id\":null,\"method\":\"mining.set_difficulty\",\"params\":[9007199254740993]\x7d"

/-- A difficulty change to 1000 whose request id is 4. -/
def difficultyWithId4Line : String :=
  "\x7b\"id\":4,\"method\":\"mining.set_difficulty\",\"params\":[1000]\x7d"

/-- A new job, as a pool sends it. -/
def sampleNotifyLine : String :=
  "\x7b\"id\":null,\"method\":\"mining.notify\",\"params\":[\"job1\",\"0000018f2b3c4d5e\",\"00ff\"]\x7d"

/-- A second new job. -/
def secondNotifyLine : String :=
  "\x7b\"id\":null,\"method\":\"mining.notify\",\"params\":[\"job2\",\"0000018f2b3c4d5f\",\"a1b2\"]\x7d"

/-- A new job whose request id is 4. -/
def notifyWithId4Line : String :=
  "\x7b\"id\":4,\"method\":\"mining.notify\",\"params\":[\"job1\",\"0000018f2b3c4d5e\",\"00ff\"]\x7d"

/-- A new job written with a blank after the colon of the method key. -/
def notifySpacedLine : String :=
  "\x7b\"method\": \"mining.notify\",\"params\":[\"job1\",\"0000018f2b3c4d5e\",\"00ff\"]\x7d"

/-- A new job with a further top-level field whose value mentions a difficulty change. -/
def notifyWithExtraLine : String :=
  "\x7b\"method\":\"mining.notify\",\"params\":[\"job1\",\"0000018f2b3c4d5e\",\"00ff\"],\"x\":\x7b\"method\":\"mining.set_difficulty\"\x7d\x7d"

/-- The parameters of the sample new job after decoding. -/
def sampleNotifyMsg : MethodMsg :=
  { Method := "mining.notify"
    Params := [JValue.str "job1", JValue.str "0000018f2b3c4d5e", JValue.str "00ff"] }

/-- What `json.Unmarshal` into `diffMsg` / `notify` yields for the sample lines. -/
def sampleUnmarshalMsg (line : String) : Option MethodMsg :=
  if line = sampleDifficultyLine ∨ line = difficultyWithId4Line then
    some { Method := "mining.set_difficulty", Params := [JValue.num ((1000 : Nat) : ℚ)] }
  else if line = oddDifficultyLine then
    some { Method := "mining.set_difficulty",
           Params := [JValue.num ((9007199254740992 : Nat) : ℚ)] }
  else if line = zeroDifficultyLine then
    some { Method := "mining.set_difficulty", Params := [JValue.num 0] }
  else if line = twoDifficultyLine then
    some { Method := "mining.set_difficulty", Params := [JValue.num ((2 : Nat) : ℚ)] }
  else if line = sampleNotifyLine ∨ line = notifyWithId4Line ∨ line = notifySpacedLine
      ∨ line = notifyWithExtraLine then
    some sampleNotifyMsg
  else if line = secondNotifyLine then
    some { Method := "mining.notify"
           Params := [JValue.str "job2", JValue.str "0000018f2b3c4d5f", JValue.str "a1b2"] }
  else none

/-- What `json.Unmarshal` into `submitResp` yields for the sample lines. -/
def sampleUnmarshalSubmit (line : String) : Option SubmitResp :=
  if line = notifyWithId4Line ∨ line = difficultyWithId4Line then
    some { ID := 4, Result := JValue.null, Error := JValue.null }
  else if line = sampleDifficultyLine ∨ line = zeroDifficultyLine ∨ line = twoDifficultyLine
      ∨ line = oddDifficultyLine ∨ line = sampleNotifyLine ∨ line = secondNotifyLine ∨ line = notifySpacedLine
      ∨ line = notifyWithExtraLine then
    some { ID := 0, Result := JValue.null, Error := JValue.null }
  else none

/-- A four-thread machine with the sample decoder. -/
def sampleEnv : Env :=
  { numThreads := 4
    floatToUint64 := fun _ => 0
    unmarshalSubmit := sampleUnmarshalSubmit
    unmarshalMsg := sampleUnmarshalMsg }

/-- The router state in which `RunMining` starts its loop (clock reading 0). -/
def sampleState : RouterState :=
  { difficulty := 1
    target := 2 ^ 256
    cancelMining := none
    currentJob := none
    stats := { hashCount := 0, shareFound := 0, shareAccept := 0, shareReject := 0,
               startTime := 0 }
    generations := [] }

/-! ## Notions used to state the properties -/

/-- The number read back from little-endian bytes. -/
def leValue : List Nat → Nat
  | [] => 0
  | x :: xs => x + 256 * leValue xs

/-- A stub for the hash function that returns a fixed digest and leaves the
scratchpad alone. -/
def constHash (digest : List Nat) : List Nat → Unit → List Nat × Unit :=
  fun _ pad => (digest, pad)

/-- A job with an 8-byte timestamp and a 32-byte header hash. -/
def sampleJob : MiningJob :=
  { jobID := "job1"
    timestamp := [0, 0, 1, 143, 43, 60, 77, 94]
    headerHash := List.range 32
    target := 2 ^ 200 }

/-- A session with a 32-byte extra nonce and a 32-byte public key. -/
def sampleSession : SessionInfo :=
  { extraNonce := (List.range 32).map (fun k => 100 + k)
    publicKey := (List.range 32).map (fun k => 200 + k) }

/-- A 32-byte digest whose big-endian value is `2^200`. -/
def digestAtTarget : List Nat := List.replicate 6 0 ++ [1] ++ List.replicate 25 0

/-- A 32-byte digest whose big-endian value is `2^200 + 1`. -/
def digestAboveTarget : List Nat := List.replicate 6 0 ++ [1] ++ List.replicate 24 0 ++ [1]

/-- The buffered reads on a connection the pool has closed: every read returns no
data and `io.EOF`. -/
def closedConn : Nat → ReadResult :=
  fun _ => { line := "", err := some ReadErr.eof }

/-- The buffered reads on a connection that delivers the sample job line, then an
empty line, then fails with a reset. -/
def resetConn : Nat → ReadResult
  | 0 => { line := sampleNotifyLine ++ "\n", err := none }
  | 1 => { line := "\n", err := none }
  | _ => { line := "", err := some (ReadErr.other "connection reset by peer") }

/-- The worker generations whose context has not been cancelled. -/
def liveGenerations (s : RouterState) : List Generation :=
  s.generations.filter (fun g => !g.cancelled)

/-- The invariant of the router loop: every context but the newest is cancelled,
and the stored cancel function is that of the newest context. -/
def RouterInv (s : RouterState) : Prop :=
  (s.generations = [] ∧ s.cancelMining = none)
  ∨ ∃ (old : List Generation) (last : Generation),
      s.generations = old ++ [last] ∧ (∀ g ∈ old, g.cancelled = true)
        ∧ s.cancelMining = some old.length

/-- The workers `go mineWorker(ctx, t, job, ...)` for `t = 0, ..., numThreads - 1`. -/
def workersFor (numThreads : Nat) (job : MiningJob) : List Worker :=
  (List.range numThreads).map (fun t => { threadID := t, job := job })

/-- Whether a trace respects the timing of the worker loop: the hash attempts made
between two consecutive flushes, counted in `pending`, stay below `2^64` (a tick
interval of one second leaves room for far fewer). -/
def noWrap : Nat → List Select → Bool
  | _, [] => true
  | pending, Select.dflt :: evs => decide (pending + 1 < U64) && noWrap (pending + 1) evs
  | _, _ :: evs => noWrap 0 evs

end BernMiner

/-! # Properties -/

namespace BernMiner

/-! ## Difficulty and target -/

theorem truncRat_natCast (d : Nat) : truncRat (d : ℚ) = (d : Int) := by
  unfold truncRat
  rw [if_pos (by exact_mod_cast Nat.zero_le d)]
  rfl

theorem uint64OfFloat_natCast (impl : ℚ → Nat) (d : Nat) (h : d < 2 ^ 64) :
    uint64OfFloat impl (d : ℚ) = d := by
  unfold uint64OfFloat
  rw [truncRat_natCast]
  have h1 : (0 : Int) ≤ (d : Int) ∧ (d : Int) < 2 ^ 64 := by
    constructor
    · exact Int.natCast_nonneg d
    · exact_mod_cast h
  rw [if_pos h1]
  simp

theorem routerInit_eq (startTime : Nat) :
    routerInit startTime = some
      { difficulty := 1, target := 2 ^ 256, cancelMining := none, currentJob := none,
        stats := { hashCount := 0, shareFound := 0, shareAccept := 0, shareReject := 0,
                   startTime := startTime },
        generations := [] } := by
  simp [routerInit, bigDiv, lsh1_256]

theorem processLine_difficulty (env : Env) (s : RouterState) (line : String)
    (hsub : stringsContains line submitMarker = false)
    (hdiff : stringsContains line difficultyMarker = true) :
    processLine env s line = handleSetDifficulty env line s := by
  simp [processLine, hsub, hdiff]

theorem handleSetDifficulty_ok (env : Env) (s : RouterState) (line : String) (m : MethodMsg)
    (v : ℚ) (rest : List JValue)
    (hm : env.unmarshalMsg line = some m) (hp : m.Params = JValue.num v :: rest)
    (hd : 1 ≤ uint64OfFloat env.floatToUint64 v) :
    handleSetDifficulty env line s = some
      { s with difficulty := uint64OfFloat env.floatToUint64 v
               target := 2 ^ 256 / uint64OfFloat env.floatToUint64 v } := by
  have h0 : uint64OfFloat env.floatToUint64 v ≠ 0 := by omega
  simp [handleSetDifficulty, hm, hp, bigDiv, lsh1_256, h0]

theorem uint64OfFloat_of_range (impl : ℚ → Nat) (v : ℚ) (h1 : 1 ≤ v) (h2 : v < 2 ^ 64) :
    uint64OfFloat impl v = (Rat.floor v).toNat ∧ 1 ≤ (Rat.floor v).toNat
      ∧ (Rat.floor v).toNat < 2 ^ 64 := by
  have h0 : (0 : ℚ) ≤ v := le_trans zero_le_one h1
  have hfl : truncRat v = Rat.floor v := by
    unfold truncRat
    rw [if_pos h0]
  have hge : (1 : Int) ≤ Rat.floor v := by
    show (1 : Int) ≤ ⌊v⌋
    exact Int.le_floor.mpr (by exact_mod_cast h1)
  have hlt : Rat.floor v < 2 ^ 64 := by
    show ⌊v⌋ < 2 ^ 64
    exact Int.floor_lt.mpr (by exact_mod_cast h2)
  unfold uint64OfFloat
  rw [hfl, if_pos ⟨by omega, hlt⟩]
  refine ⟨rfl, by omega, by omega⟩

/-- C1 (counterexample). The claim gives the target as the quotient of `2^256 - 1`;
the miner divides `2^256`. The initial target (difficulty 1) is `2^256`, not
`2^256 - 1`; after a difficulty change to 2 the target is `2^255`, not
`(2^256 - 1) / 2`. Three further inputs show what else the claim misses: a
parameter of `2^64` does not fit the `uint64` difficulty and never yields the
claimed quotient, whatever the platform conversion returns; the integer `2^53 + 1`
reaches the miner as the `float64` value `2^53`, so the target is `2^203`; and a
difficulty change to 1000 whose line contains `"id":4` is handled as a submit
result and leaves the target at `2^256`. -/
theorem target_formula_counterexample :
    (Option.map RouterState.target (routerInit 0) = some (2 ^ 256)
      ∧ (2 ^ 256 : Nat) ≠ (2 ^ 256 - 1) / 1)
    ∧ (Option.map RouterState.target (processLine sampleEnv sampleState twoDifficultyLine)
        = some (2 ^ 255)
      ∧ (2 ^ 255 : Nat) ≠ (2 ^ 256 - 1) / 2)
    ∧ (∀ (env : Env) (s : RouterState) (line : String) (m : MethodMsg),
        env.unmarshalMsg line = some m →
        m.Params = [JValue.num (((2 : Nat) ^ 64 : Nat) : ℚ)] →
        Option.map RouterState.target (handleSetDifficulty env line s)
          ≠ some ((2 ^ 256 - 1) / 2 ^ 64))
    ∧ (Option.map RouterState.target (processLine sampleEnv sampleState oddDifficultyLine)
        = some (2 ^ 203)
      ∧ (2 ^ 203 : Nat) ≠ (2 ^ 256 - 1) / (2 ^ 53 + 1)
      ∧ (2 ^ 203 : Nat) ≠ 2 ^ 256 / (2 ^ 53 + 1))
    ∧ (processLine sampleEnv sampleState difficultyWithId4Line
        = some { sampleState with stats := { sampleState.stats with shareAccept := 1 } }
      ∧ sampleState.target = 2 ^ 256
      ∧ (2 ^ 256 : Nat) ≠ (2 ^ 256 - 1) / 1000 ∧ (2 ^ 256 : Nat) ≠ 2 ^ 256 / 1000) := by
  refine ⟨⟨?_, by norm_num⟩, ⟨?_, by norm_num⟩, ?_,
    ⟨?_, by norm_num, by norm_num⟩, ⟨by decide, rfl, by norm_num, by norm_num⟩⟩
  · rw [routerInit_eq]; rfl
  · have hsub : stringsContains twoDifficultyLine submitMarker = false := by decide
    have hdiff : stringsContains twoDifficultyLine difficultyMarker = true := by decide
    have hm : sampleEnv.unmarshalMsg twoDifficultyLine
        = some { Method := "mining.set_difficulty", Params := [JValue.num ((2 : Nat) : ℚ)] } := by
      rfl
    have hd : uint64OfFloat sampleEnv.floatToUint64 ((2 : Nat) : ℚ) = 2 :=
      uint64OfFloat_natCast _ 2 (by norm_num)
    rw [processLine_difficulty _ _ _ hsub hdiff,
      handleSetDifficulty_ok sampleEnv sampleState twoDifficultyLine _ _ [] hm rfl (by rw [hd]; norm_num)]
    simp only [Option.map_some', hd]
    norm_num
  · intro env s line m hm hp
    have hr : uint64OfFloat env.floatToUint64 (((2 : Nat) ^ 64 : Nat) : ℚ) < 2 ^ 64 := by
      unfold uint64OfFloat
      rw [truncRat_natCast]
      have hn : ¬ ((0 : Int) ≤ (((2 : Nat) ^ 64 : Nat) : Int)
          ∧ (((2 : Nat) ^ 64 : Nat) : Int) < 2 ^ 64) := by
        norm_num
      rw [if_neg hn]
      exact Nat.mod_lt _ (by norm_num [U64])
    rcases Nat.eq_zero_or_pos (uint64OfFloat env.floatToUint64 (((2 : Nat) ^ 64 : Nat) : ℚ))
      with h0 | hpos
    · have hnone : handleSetDifficulty env line s = none := by
        simp only [handleSetDifficulty, hm, hp, bigDiv, h0, if_true]
      rw [hnone]
      simp
    · rw [handleSetDifficulty_ok env s line m _ [] hm hp hpos]
      simp only [Option.map_some', ne_eq, Option.some.injEq]
      intro hEq
      have hle : 2 ^ 192 ≤ 2 ^ 256 / uint64OfFloat env.floatToUint64 (((2 : Nat) ^ 64 : Nat) : ℚ) := by
        rw [Nat.le_div_iff_mul_le hpos]
        calc 2 ^ 192 * uint64OfFloat env.floatToUint64 (((2 : Nat) ^ 64 : Nat) : ℚ)
            ≤ 2 ^ 192 * 2 ^ 64 := Nat.mul_le_mul_left _ (Nat.le_of_lt hr)
          _ = 2 ^ 256 := by norm_num
      rw [hEq] at hle
      norm_num at hle
  · have hsub : stringsContains oddDifficultyLine submitMarker = false := by decide
    have hdiff : stringsContains oddDifficultyLine difficultyMarker = true := by decide
    have hm : sampleEnv.unmarshalMsg oddDifficultyLine
        = some { Method := "mining.set_difficulty",
                 Params := [JValue.num ((9007199254740992 : Nat) : ℚ)] } := by
      rfl
    have hd : uint64OfFloat sampleEnv.floatToUint64 ((9007199254740992 : Nat) : ℚ)
        = 9007199254740992 :=
      uint64OfFloat_natCast _ 9007199254740992 (by norm_num)
    rw [processLine_difficulty _ _ _ hsub hdiff,
      handleSetDifficulty_ok sampleEnv sampleState oddDifficultyLine _ _ [] hm rfl
        (by rw [hd]; norm_num)]
    simp only [Option.map_some', hd]
    norm_num

/-- C1 (amended). On every line that the router handles as a difficulty change (its
text contains `"method":"mining.set_difficulty"` and does not contain `"id":4`) and
whose first parameter decodes to a `float64` value `v` with `1 ≤ v < 2^64`, the
difficulty becomes `d = uint64(v)`, the integer part of `v`, with `1 ≤ d < 2^64`,
and the process-wide target becomes `⌊2^256 / d⌋`; when `v` is an integer, `d` is
that integer. The initial target, for difficulty 1, is `2^256 / 1 = 2^256`. -/
theorem target_eq_two_pow_div (env : Env) (s : RouterState) (line : String) (m : MethodMsg)
    (rest : List JValue) (v : ℚ) (startTime : Nat)
    (hsub : stringsContains line submitMarker = false)
    (hdiff : stringsContains line difficultyMarker = true)
    (hm : env.unmarshalMsg line = some m) (hp : m.Params = JValue.num v :: rest)
    (h1 : 1 ≤ v) (h2 : v < 2 ^ 64) :
    (∃ s0, routerInit startTime = some s0 ∧ s0.difficulty = 1 ∧ s0.target = 2 ^ 256 / 1
        ∧ s0.target = 2 ^ 256)
    ∧ ∃ s1, processLine env s line = some s1
        ∧ s1.difficulty = (Rat.floor v).toNat
        ∧ 1 ≤ s1.difficulty ∧ s1.difficulty < 2 ^ 64
        ∧ s1.target = 2 ^ 256 / s1.difficulty
        ∧ ∀ d : Nat, v = (d : ℚ) → s1.difficulty = d ∧ s1.target = 2 ^ 256 / d := by
  obtain ⟨hd, hge, hlt⟩ := uint64OfFloat_of_range env.floatToUint64 v h1 h2
  refine ⟨⟨_, routerInit_eq startTime, rfl, by norm_num, rfl⟩, ?_⟩
  rw [processLine_difficulty _ _ _ hsub hdiff,
    handleSetDifficulty_ok env s line m _ rest hm hp (by rw [hd]; exact hge)]
  refine ⟨_, rfl, hd, by simp only [hd]; exact hge, by simp only [hd]; exact hlt, rfl, ?_⟩
  intro d hvd
  have hfloor : (Rat.floor v).toNat = d := by
    rw [hvd]
    rfl
  simp only [hd, hfloor]
  exact ⟨trivial, trivial⟩

/-- C1 (witness): the amended statement at the sample difficulty change to 1000. -/
theorem target_eq_two_pow_div_witness :
    (∃ s0, routerInit 0 = some s0 ∧ s0.difficulty = 1 ∧ s0.target = 2 ^ 256 / 1
        ∧ s0.target = 2 ^ 256)
    ∧ ∃ s1, processLine sampleEnv sampleState sampleDifficultyLine = some s1
        ∧ s1.difficulty = 1000 ∧ s1.target = 2 ^ 256 / 1000 := by
  obtain ⟨h0, s1, hs1, _, _, _, _, hall⟩ :=
    target_eq_two_pow_div sampleEnv sampleState sampleDifficultyLine
      { Method := "mining.set_difficulty", Params := [JValue.num ((1000 : Nat) : ℚ)] } []
      ((1000 : Nat) : ℚ) 0
      (by decide) (by decide) rfl rfl (by norm_num) (by norm_num)
  exact ⟨h0, s1, hs1, hall 1000 rfl⟩

/-! ## Nonce partition -/

theorem leValue_putUint64LE (v : Nat) : leValue (putUint64LE v) = v % 2 ^ 64 := by
  simp only [putUint64LE, leValue, byteAt]
  norm_num
  omega

theorem putUint64LE_injOn {a b : Nat} (ha : a < 2 ^ 64) (hb : b < 2 ^ 64)
    (h : putUint64LE a = putUint64LE b) : a = b := by
  have h1 := leValue_putUint64LE a
  have h2 := leValue_putUint64LE b
  rw [h, h2] at h1
  rw [Nat.mod_eq_of_lt ha, Nat.mod_eq_of_lt hb] at h1
  exact h1.symm

theorem nonceValue_eq (t c : Nat) (ht : t < 256) (hc : c < 2 ^ 56) :
    nonceValue t c = 2 ^ 56 * t + c := by
  unfold nonceValue
  have h1 : (t <<< 56) % U64 = 2 ^ 56 * t := by
    rw [Nat.shiftLeft_eq, Nat.mul_comm]
    apply Nat.mod_eq_of_lt
    norm_num [U64]
    omega
  rw [h1, Nat.mul_add_lt_is_or hc]

section WorkerLemmas

variable {Pad : Type} (hash : List Nat → Pad → List Nat × Pad) (threadID : Nat)
  (job : MiningJob) (session : SessionInfo) (worker : String)

theorem mineWorkerStep_returned (w : WorkerState Pad) (ev : Select) (hw : w.returned = true) :
    mineWorkerStep hash threadID job session worker w ev = (w, []) := by
  simp [mineWorkerStep, hw]

theorem mineWorkerStep_ctxDone (w : WorkerState Pad) (hw : w.returned = false) :
    mineWorkerStep hash threadID job session worker w Select.ctxDone
      = ({ w with returned := true }, [Call.addHash w.hashCount]) := by
  simp [mineWorkerStep, hw]

theorem mineWorkerStep_tickerC (w : WorkerState Pad) (hw : w.returned = false) :
    mineWorkerStep hash threadID job session worker w Select.tickerC
      = ({ w with hashCount := 0 }, [Call.addHash w.hashCount]) := by
  simp [mineWorkerStep, hw]

theorem mineWorkerStep_dflt_state (w : WorkerState Pad) (hw : w.returned = false) :
    (mineWorkerStep hash threadID job session worker w Select.dflt).1
      = { scratchpad :=
            (hash (minerWork job session
              (putUint64LE (nonceValue threadID ((w.nonceCounter + 1) % U64)))) w.scratchpad).2
          nonce := putUint64LE (nonceValue threadID ((w.nonceCounter + 1) % U64))
          hashCount := (w.hashCount + 1) % U64
          nonceCounter := (w.nonceCounter + 1) % U64
          returned := false } := by
  simp only [mineWorkerStep, hw, Bool.false_eq_true, if_false]
  split <;> rfl

theorem mineWorkerStep_dflt_calls (w : WorkerState Pad) (hw : w.returned = false) :
    (mineWorkerStep hash threadID job session worker w Select.dflt).2
      = if setBytes (hash (minerWork job session
              (putUint64LE (nonceValue threadID ((w.nonceCounter + 1) % U64)))) w.scratchpad).1
            ≤ job.target then
          [Call.addShare,
           Call.send { id := 4, method := "mining.submit",
                       params := [worker, job.jobID,
                         hexEncodeToString
                           (putUint64LE (nonceValue threadID ((w.nonceCounter + 1) % U64)))] }]
        else [] := by
  simp only [mineWorkerStep, hw, Bool.false_eq_true, if_false]
  split <;> rfl

theorem mineWorkerRun_nil (w : WorkerState Pad) :
    mineWorkerRun hash threadID job session worker w [] = (w, []) := rfl

theorem mineWorkerRun_cons (w : WorkerState Pad) (ev : Select) (evs : List Select) :
    mineWorkerRun hash threadID job session worker w (ev :: evs)
      = ((mineWorkerRun hash threadID job session worker
            (mineWorkerStep hash threadID job session worker w ev).1 evs).1,
         (mineWorkerStep hash threadID job session worker w ev).2
          ++ (mineWorkerRun hash threadID job session worker
            (mineWorkerStep hash threadID job session worker w ev).1 evs).2) := rfl

theorem mineWorkerRun_nonce (evs : List Select) :
    ∀ w : WorkerState Pad, w.returned = false → Select.ctxDone ∉ evs →
      w.nonceCounter < U64 →
      w.nonce = putUint64LE (nonceValue threadID w.nonceCounter) →
      (mineWorkerRun hash threadID job session worker w evs).1.returned = false
      ∧ (mineWorkerRun hash threadID job session worker w evs).1.nonceCounter
          = (w.nonceCounter + evs.count Select.dflt) % U64
      ∧ (mineWorkerRun hash threadID job session worker w evs).1.nonce
          = putUint64LE (nonceValue threadID
              (mineWorkerRun hash threadID job session worker w evs).1.nonceCounter) := by
  induction evs with
  | nil =>
    intro w hw _ hlt hn
    simp only [mineWorkerRun_nil, List.count_nil, Nat.add_zero]
    exact ⟨hw, (Nat.mod_eq_of_lt hlt).symm, hn⟩
  | cons ev evs ih =>
    intro w hw hmem hlt hn
    have hmem2 : Select.ctxDone ∉ evs := fun h => hmem (List.mem_cons_of_mem _ h)
    rw [mineWorkerRun_cons]
    cases ev with
    | ctxDone => exact absurd (List.mem_cons_self _ _) hmem
    | tickerC =>
      rw [mineWorkerStep_tickerC _ _ _ _ _ w hw]
      have h := ih { w with hashCount := 0 } hw hmem2 hlt hn
      simpa using h
    | dflt =>
      rw [mineWorkerStep_dflt_state _ _ _ _ _ w hw]
      have hU : 0 < U64 := by norm_num [U64]
      have h := ih
        { scratchpad :=
            (hash (minerWork job session
              (putUint64LE (nonceValue threadID ((w.nonceCounter + 1) % U64)))) w.scratchpad).2
          nonce := putUint64LE (nonceValue threadID ((w.nonceCounter + 1) % U64))
          hashCount := (w.hashCount + 1) % U64
          nonceCounter := (w.nonceCounter + 1) % U64
          returned := false } rfl hmem2 (Nat.mod_lt _ hU) rfl
      refine ⟨h.1, ?_, h.2.2⟩
      rw [h.2.1]
      simp only [List.count_cons_self]
      rw [Nat.mod_add_mod]
      congr 1
      omega

theorem mineWorkerInit_nonce (pad : Pad) :
    (mineWorkerInit threadID pad).nonce
      = putUint64LE (nonceValue threadID (mineWorkerInit threadID pad).nonceCounter) := by
  simp [mineWorkerInit, nonceValue]

/-- The nonce held by a worker after a cancel-free run: the encoding of
`(threadID << 56) | (number of hash attempts mod 2^64)`. -/
theorem mineWorkerRun_init_nonce (pad : Pad) (evs : List Select)
    (hmem : Select.ctxDone ∉ evs) :
    (mineWorkerRun hash threadID job session worker (mineWorkerInit threadID pad) evs).1.nonce
      = putUint64LE (nonceValue threadID (evs.count Select.dflt % U64)) := by
  have h := mineWorkerRun_nonce hash threadID job session worker evs
    (mineWorkerInit threadID pad) rfl hmem (by norm_num [mineWorkerInit, U64])
    (mineWorkerInit_nonce threadID pad)
  rw [h.2.2, h.2.1]
  simp [mineWorkerInit]

end WorkerLemmas

theorem putUint64LE_msb (t c : Nat) (ht : t < 256) (hc : c < 2 ^ 56) :
    (putUint64LE (2 ^ 56 * t + c))[7]? = some t := by
  simp only [putUint64LE, byteAt]
  norm_num
  omega

theorem putUint64LE_low56 (t c : Nat) (hc : c < 2 ^ 56) :
    leValue ((putUint64LE (2 ^ 56 * t + c)).take 7) = c := by
  simp only [putUint64LE, byteAt, List.take, leValue]
  norm_num
  omega

/-- C2 (counterexample). With 257 threads, workers 0 and 256 hold the same nonce
after their first hash attempt, and the most-significant nonce byte of worker 256
is 0; with two threads, worker 0 at attempt `2^56 + 1` holds the nonce of worker 1
at attempt 1. -/
theorem nonce_partition_counterexample :
    ((0 : Nat) ≠ 256 ∧ (0 : Nat) < 257 ∧ (256 : Nat) < 257
      ∧ (mineWorkerRun (constHash []) 0 sampleJob sampleSession "rig"
            (mineWorkerInit 0 ()) [Select.dflt]).1.nonce
          = (mineWorkerRun (constHash []) 256 sampleJob sampleSession "rig"
            (mineWorkerInit 256 ()) [Select.dflt]).1.nonce
      ∧ (mineWorkerRun (constHash []) 256 sampleJob sampleSession "rig"
            (mineWorkerInit 256 ()) [Select.dflt]).1.nonce[7]? = some 0)
    ∧ ((0 : Nat) ≠ 1 ∧ (0 : Nat) < 2 ∧ (1 : Nat) < 2
      ∧ (mineWorkerRun (constHash []) 0 sampleJob sampleSession "rig"
            (mineWorkerInit 0 ()) (List.replicate (2 ^ 56 + 1) Select.dflt)).1.nonce
          = (mineWorkerRun (constHash []) 1 sampleJob sampleSession "rig"
            (mineWorkerInit 1 ()) [Select.dflt]).1.nonce) := by
  have hrep : ∀ n : Nat, Select.ctxDone ∉ List.replicate n Select.dflt := by
    intro n h
    exact absurd (List.eq_of_mem_replicate h) (by decide)
  have h1 : Select.ctxDone ∉ [Select.dflt] := by decide
  refine ⟨⟨by decide, by decide, by decide, ?_, ?_⟩, by decide, by decide, by decide, ?_⟩
  · rw [mineWorkerRun_init_nonce _ _ _ _ _ _ _ h1, mineWorkerRun_init_nonce _ _ _ _ _ _ _ h1]
    decide
  · rw [mineWorkerRun_init_nonce _ _ _ _ _ _ _ h1]
    decide
  · rw [mineWorkerRun_init_nonce _ _ _ _ _ _ _ (hrep _),
      mineWorkerRun_init_nonce _ _ _ _ _ _ _ h1, List.count_replicate_self]
    decide

/-- C2 (amended). For every thread count `N ≤ 256`, two workers with distinct
indices below `N` running on the same job hold different 8-byte nonces whenever
each has made fewer than `2^56` hash attempts; the most-significant byte of a
worker's nonce is its thread index and the lower 56 bits are the number of hash
attempts it has made, hence strictly increasing. -/
theorem nonce_partition {Pad : Type} (hash : List Nat → Pad → List Nat × Pad)
    (job : MiningJob) (session : SessionInfo) (worker : String)
    (N t1 t2 : Nat) (pad1 pad2 : Pad) (evs1 evs2 : List Select)
    (hN : N ≤ 256) (ht1 : t1 < N) (ht2 : t2 < N) (hne : t1 ≠ t2)
    (hc1 : Select.ctxDone ∉ evs1) (hc2 : Select.ctxDone ∉ evs2)
    (hi : evs1.count Select.dflt < 2 ^ 56) (hj : evs2.count Select.dflt < 2 ^ 56) :
    (mineWorkerRun hash t1 job session worker (mineWorkerInit t1 pad1) evs1).1.nonce
        ≠ (mineWorkerRun hash t2 job session worker (mineWorkerInit t2 pad2) evs2).1.nonce
    ∧ (mineWorkerRun hash t1 job session worker (mineWorkerInit t1 pad1) evs1).1.nonce[7]?
        = some t1
    ∧ leValue ((mineWorkerRun hash t1 job session worker
          (mineWorkerInit t1 pad1) evs1).1.nonce.take 7) = evs1.count Select.dflt := by
  have hU : (2 : Nat) ^ 56 < U64 := by norm_num [U64]
  have e1 : evs1.count Select.dflt % U64 = evs1.count Select.dflt :=
    Nat.mod_eq_of_lt (Nat.lt_trans hi hU)
  have e2 : evs2.count Select.dflt % U64 = evs2.count Select.dflt :=
    Nat.mod_eq_of_lt (Nat.lt_trans hj hU)
  rw [mineWorkerRun_init_nonce _ _ _ _ _ _ _ hc1, mineWorkerRun_init_nonce _ _ _ _ _ _ _ hc2,
    e1, e2, nonceValue_eq t1 _ (by omega) hi, nonceValue_eq t2 _ (by omega) hj]
  refine ⟨?_, putUint64LE_msb t1 _ (by omega) hi, putUint64LE_low56 t1 _ hi⟩
  intro h
  have hv := putUint64LE_injOn (by omega) (by omega) h
  omega

/-- C2 (witness): the amended statement for workers 0 and 3 of four, after two and
one hash attempts. -/
theorem nonce_partition_witness :
    (mineWorkerRun (constHash []) 0 sampleJob sampleSession "rig" (mineWorkerInit 0 ())
          [Select.dflt, Select.tickerC, Select.dflt]).1.nonce
        ≠ (mineWorkerRun (constHash []) 3 sampleJob sampleSession "rig" (mineWorkerInit 3 ())
          [Select.dflt]).1.nonce
    ∧ (mineWorkerRun (constHash []) 0 sampleJob sampleSession "rig" (mineWorkerInit 0 ())
          [Select.dflt, Select.tickerC, Select.dflt]).1.nonce[7]? = some 0
    ∧ leValue ((mineWorkerRun (constHash []) 0 sampleJob sampleSession "rig"
          (mineWorkerInit 0 ()) [Select.dflt, Select.tickerC, Select.dflt]).1.nonce.take 7)
        = [Select.dflt, Select.tickerC, Select.dflt].count Select.dflt :=
  nonce_partition (constHash []) sampleJob sampleSession "rig" 4 0 3 () ()
    [Select.dflt, Select.tickerC, Select.dflt] [Select.dflt]
    (by decide) (by decide) (by decide) (by decide) (by decide) (by decide)
    (by decide) (by decide)

/-! ## Work buffer -/

theorem copyInto_at (pre old post src : List Nat) (lo hi : Nat)
    (hpre : pre.length = lo) (hold : old.length = hi - lo) (hsrc : src.length = hi - lo) :
    copyInto (pre ++ old ++ post) lo hi src = pre ++ src ++ post := by
  unfold copyInto
  have h1 : (pre ++ old ++ post).take lo = pre := by
    rw [List.append_assoc, List.take_left' hpre]
  have h2 : src.take (hi - lo) = src := by
    rw [← hsrc, List.take_length]
  have h3 : (pre ++ old ++ post).drop (lo + min (hi - lo) src.length) = post := by
    rw [hsrc, Nat.min_self]
    apply List.drop_left'
    simp [hpre, hold]
  rw [h1, h2, h3]

theorem putUint64LE_length (v : Nat) : (putUint64LE v).length = 8 := rfl

theorem minerWork_eq (job : MiningJob) (session : SessionInfo) (nonce : List Nat)
    (hh : job.headerHash.length = 32) (hts : job.timestamp.length = 8)
    (hn : nonce.length = 8)
    (hen : session.extraNonce.length = 32) (hpk : session.publicKey.length = 32) :
    minerWork job session nonce
      = job.headerHash ++ job.timestamp ++ nonce ++ session.extraNonce ++ session.publicKey := by
  unfold minerWork
  have e1 : copyInto (List.replicate 112 0) 0 32 job.headerHash
      = job.headerHash ++ List.replicate 80 0 := by
    have h := copyInto_at [] (List.replicate 32 0) (List.replicate 80 0) job.headerHash 0 32
      rfl rfl hh
    rw [List.nil_append, List.nil_append] at h
    rw [← h]
    rfl
  have e2 : copyInto (job.headerHash ++ List.replicate 80 0) 32 40 job.timestamp
      = job.headerHash ++ job.timestamp ++ List.replicate 72 0 := by
    have h := copyInto_at job.headerHash (List.replicate 8 0) (List.replicate 72 0)
      job.timestamp 32 40 hh rfl hts
    rw [← h, List.append_assoc]
    rfl
  have e3 : copyInto (job.headerHash ++ job.timestamp ++ List.replicate 72 0) 40 48 nonce
      = job.headerHash ++ job.timestamp ++ nonce ++ List.replicate 64 0 := by
    have h := copyInto_at (job.headerHash ++ job.timestamp) (List.replicate 8 0)
      (List.replicate 64 0) nonce 40 48 (by simp [hh, hts]) rfl hn
    rw [← h, List.append_assoc (job.headerHash ++ job.timestamp)]
    rfl
  have e4 : copyInto (job.headerHash ++ job.timestamp ++ nonce ++ List.replicate 64 0) 48 80
        session.extraNonce
      = job.headerHash ++ job.timestamp ++ nonce ++ session.extraNonce
          ++ List.replicate 32 0 := by
    have h := copyInto_at (job.headerHash ++ job.timestamp ++ nonce) (List.replicate 32 0)
      (List.replicate 32 0) session.extraNonce 48 80 (by simp [hh, hts, hn]) rfl hen
    rw [← h, List.append_assoc (job.headerHash ++ job.timestamp ++ nonce)]
    rfl
  have e5 : copyInto (job.headerHash ++ job.timestamp ++ nonce ++ session.extraNonce
        ++ List.replicate 32 0) 80 112 session.publicKey
      = job.headerHash ++ job.timestamp ++ nonce ++ session.extraNonce
          ++ session.publicKey := by
    have h := copyInto_at (job.headerHash ++ job.timestamp ++ nonce ++ session.extraNonce)
      (List.replicate 32 0) [] session.publicKey 80 112 (by simp [hh, hts, hn, hen]) rfl hpk
    rw [List.append_nil, List.append_nil] at h
    exact h
  simp only [e1, e2, e3, e4, e5]

/-- C3. For a job with a 32-byte header hash and an 8-byte timestamp, a session with
a 32-byte extra nonce and a 32-byte public key, and any nonce value `n`, the work
buffer built by `mineWorker` has 112 bytes and is
`headerHash ++ timestamp ++ LE64(n) ++ extraNonce ++ publicKey`: bytes `[0:32)` are
the header hash, `[32:40)` the timestamp, `[40:48)` the little-endian nonce,
`[48:80)` the extra nonce and `[80:112)` the public key. -/
theorem minerWork_layout (job : MiningJob) (session : SessionInfo) (n : Nat)
    (hh : job.headerHash.length = 32) (hts : job.timestamp.length = 8)
    (hen : session.extraNonce.length = 32) (hpk : session.publicKey.length = 32) :
    (minerWork job session (putUint64LE n)).length = 112
    ∧ minerWork job session (putUint64LE n)
        = job.headerHash ++ job.timestamp ++ putUint64LE n ++ session.extraNonce
            ++ session.publicKey
    ∧ (minerWork job session (putUint64LE n)).take 32 = job.headerHash
    ∧ ((minerWork job session (putUint64LE n)).drop 32).take 8 = job.timestamp
    ∧ ((minerWork job session (putUint64LE n)).drop 40).take 8 = putUint64LE n
    ∧ ((minerWork job session (putUint64LE n)).drop 48).take 32 = session.extraNonce
    ∧ (minerWork job session (putUint64LE n)).drop 80 = session.publicKey := by
  have hn := putUint64LE_length n
  rw [minerWork_eq job session _ hh hts hn hen hpk]
  refine ⟨by simp [hh, hts, hn, hen, hpk], rfl, ?_, ?_, ?_, ?_, ?_⟩
  · simp only [List.append_assoc]
    exact List.take_left' hh
  · simp only [List.append_assoc]
    rw [List.drop_left' hh]
    exact List.take_left' hts
  · rw [List.append_assoc, List.append_assoc,
      List.drop_left' (show (job.headerHash ++ job.timestamp).length = 40 by simp [hh, hts])]
    exact List.take_left' hn
  · rw [List.append_assoc,
      List.drop_left' (show (job.headerHash ++ job.timestamp ++ putUint64LE n).length = 48 by
        simp [hh, hts, hn])]
    exact List.take_left' hen
  · exact List.drop_left' (by simp [hh, hts, hn, hen])

set_option maxRecDepth 4000 in
/-- C3 (witness): the layout at the sample job and session with nonce value
`0x0300000000000001`, and the resulting 112 bytes spelled out. -/
theorem minerWork_layout_witness :
    minerWork sampleJob sampleSession (putUint64LE 0x0300000000000001)
        = sampleJob.headerHash ++ sampleJob.timestamp ++ putUint64LE 0x0300000000000001
            ++ sampleSession.extraNonce ++ sampleSession.publicKey
    ∧ minerWork sampleJob sampleSession (putUint64LE 0x0300000000000001)
        = List.range 32 ++ [0, 0, 1, 143, 43, 60, 77, 94] ++ [1, 0, 0, 0, 0, 0, 0, 3]
            ++ (List.range 32).map (fun k => 100 + k) ++ (List.range 32).map (fun k => 200 + k) :=
  ⟨(minerWork_layout sampleJob sampleSession 0x0300000000000001
      rfl rfl rfl rfl).2.1, by decide⟩

/-! ## Share detection -/

/-- C4. In a hash attempt of a running worker, whatever digest the hash function
returns and whatever the target of the captured job is: if the digest, read as a
big-endian unsigned integer, is at most `job.target`, the worker calls `AddShare`
once and sends one `mining.submit` with the job id of the captured job and the hex
form of the 8 nonce bytes; otherwise it makes no call at all. Hence a share is
reported if and only if the digest is at most the target. -/
theorem share_iff_digest_le_target {Pad : Type} (hash : List Nat → Pad → List Nat × Pad)
    (threadID : Nat) (job : MiningJob) (session : SessionInfo) (worker : String)
    (w : WorkerState Pad) (hw : w.returned = false) :
    (setBytes (hash (minerWork job session
          (mineWorkerStep hash threadID job session worker w Select.dflt).1.nonce)
          w.scratchpad).1 ≤ job.target →
        (mineWorkerStep hash threadID job session worker w Select.dflt).2
          = [Call.addShare,
             Call.send { id := 4, method := "mining.submit",
                         params := [worker, job.jobID, hexEncodeToString
                           (mineWorkerStep hash threadID job session worker w Select.dflt).1.nonce] }])
    ∧ (¬ setBytes (hash (minerWork job session
          (mineWorkerStep hash threadID job session worker w Select.dflt).1.nonce)
          w.scratchpad).1 ≤ job.target →
        (mineWorkerStep hash threadID job session worker w Select.dflt).2 = [])
    ∧ ((mineWorkerStep hash threadID job session worker w Select.dflt).2 ≠ [] ↔
        setBytes (hash (minerWork job session
          (mineWorkerStep hash threadID job session worker w Select.dflt).1.nonce)
          w.scratchpad).1 ≤ job.target)
    ∧ (mineWorkerStep hash threadID job session worker w Select.dflt).1.nonce.length = 8
    ∧ (∀ stats : MiningStats,
        stats.applyCalls (mineWorkerStep hash threadID job session worker w Select.dflt).2
          = if setBytes (hash (minerWork job session
                (mineWorkerStep hash threadID job session worker w Select.dflt).1.nonce)
                w.scratchpad).1 ≤ job.target
            then { stats with shareFound := (stats.shareFound + 1) % 2 ^ 64 } else stats) := by
  rw [mineWorkerStep_dflt_state hash threadID job session worker w hw,
    mineWorkerStep_dflt_calls hash threadID job session worker w hw]
  simp only []
  refine ⟨fun h => by rw [if_pos h], fun h => by rw [if_neg h], ?_, rfl, ?_⟩
  · constructor
    · intro hne
      by_contra h
      exact hne (by rw [if_neg h])
    · intro h
      rw [if_pos h]
      exact List.cons_ne_nil _ _
  · intro stats
    split <;> rfl

/-- C4 (witness): with a stub hash returning a digest equal to the target `2^200`
of the sample job, the first attempt of worker 3 reports the share with nonce
`0100000000000003`; with a digest one above the target it reports nothing. -/
theorem share_iff_digest_le_target_witness :
    (mineWorkerStep (constHash digestAtTarget) 3 sampleJob sampleSession "rig"
        (mineWorkerInit 3 ()) Select.dflt).2
      = [Call.addShare,
         Call.send { id := 4, method := "mining.submit",
                     params := ["rig", "job1", "0100000000000003"] }]
    ∧ (mineWorkerStep (constHash digestAboveTarget) 3 sampleJob sampleSession "rig"
        (mineWorkerInit 3 ()) Select.dflt).2 = [] :=
  ⟨(share_iff_digest_le_target (constHash digestAtTarget) 3 sampleJob sampleSession "rig"
      (mineWorkerInit 3 ()) rfl).1 (by decide),
   (share_iff_digest_le_target (constHash digestAboveTarget) 3 sampleJob sampleSession "rig"
      (mineWorkerInit 3 ()) rfl).2.1 (by decide)⟩

/-! ## Protocol session -/

theorem readLoop_succ (reads : Nat → ReadResult) (fuel k : Nat) (chan : List String) :
    readLoop reads (fuel + 1) k chan
      = match ReadLine (reads k) with
        | (_, some _) => (chan, true)
        | (line, none) =>
          readLoop reads fuel (k + 1) (if line.length > 0 then chan ++ [line] else chan) := rfl

theorem readLoop_running (reads : Nat → ReadResult) (fuel : Nat) :
    ∀ (k : Nat) (chan : List String),
      (∀ j, j < fuel → (ReadLine (reads (k + j))).2 = none) →
      (readLoop reads fuel k chan).2 = false := by
  induction fuel with
  | zero => intro k chan _; rfl
  | succ fuel ih =>
    intro k chan h
    rw [readLoop_succ]
    have h0 := h 0 (Nat.succ_pos fuel)
    rw [Nat.add_zero] at h0
    rcases hr : ReadLine (reads k) with ⟨line, e⟩
    rw [hr] at h0
    simp only at h0
    subst h0
    simp only
    apply ih
    intro j hj
    have := h (j + 1) (Nat.succ_lt_succ hj)
    rwa [← Nat.add_assoc, Nat.add_right_comm] at this

theorem readLoop_returns (reads : Nat → ReadResult) (n : Nat) :
    ∀ (k : Nat) (chan : List String),
      (∀ j, j < n → (ReadLine (reads (k + j))).2 = none) →
      (ReadLine (reads (k + n))).2 ≠ none →
      (readLoop reads (n + 1) k chan).2 = true := by
  induction n with
  | zero =>
    intro k chan _ hne
    rw [readLoop_succ]
    rw [Nat.add_zero] at hne
    rcases hr : ReadLine (reads k) with ⟨line, e⟩
    rw [hr] at hne
    cases e with
    | none => exact absurd rfl hne
    | some e => rfl
  | succ n ih =>
    intro k chan h hne
    rw [readLoop_succ]
    have h0 := h 0 (Nat.succ_pos n)
    rw [Nat.add_zero] at h0
    rcases hr : ReadLine (reads k) with ⟨line, e⟩
    rw [hr] at h0
    simp only at h0
    subst h0
    simp only
    apply ih
    · intro j hj
      have := h (j + 1) (Nat.succ_lt_succ hj)
      rwa [← Nat.add_assoc, Nat.add_right_comm] at this
    · rwa [Nat.add_right_comm, Nat.add_assoc]

theorem readLoop_stable (reads : Nat → ReadResult) (n extra : Nat) :
    ∀ (k : Nat) (chan : List String),
      (∀ j, j < n → (ReadLine (reads (k + j))).2 = none) →
      (ReadLine (reads (k + n))).2 ≠ none →
      readLoop reads (n + 1 + extra) k chan = readLoop reads (n + 1) k chan := by
  induction n with
  | zero =>
    intro k chan _ hne
    rw [Nat.add_zero] at hne
    rw [show 0 + 1 + extra = extra + 1 by omega, readLoop_succ, readLoop_succ]
    rcases hr : ReadLine (reads k) with ⟨line, e⟩
    rw [hr] at hne
    cases e with
    | none => exact absurd rfl hne
    | some e => rfl
  | succ n ih =>
    intro k chan h hne
    rw [show n + 1 + 1 + extra = (n + 1 + extra) + 1 by omega, readLoop_succ,
      readLoop_succ reads (n + 1)]
    have h0 := h 0 (Nat.succ_pos n)
    rw [Nat.add_zero] at h0
    rcases hr : ReadLine (reads k) with ⟨line, e⟩
    rw [hr] at h0
    simp only at h0
    subst h0
    simp only
    apply ih
    · intro j hj
      have := h (j + 1) (Nat.succ_lt_succ hj)
      rwa [← Nat.add_assoc, Nat.add_right_comm] at this
    · rwa [Nat.add_right_comm, Nat.add_assoc]

theorem ReadLine_err (r : ReadResult) :
    (ReadLine r).2 = match r.err with
      | some (ReadErr.other msg) => some (ReadErr.other msg)
      | _ => none := by
  unfold ReadLine
  rcases r with ⟨line, err⟩
  cases err with
  | none => rfl
  | some e =>
    cases e with
    | eof => rfl
    | other msg => rfl

/-- C6 (counterexample). On a closed connection the buffered read returns no data
and `io.EOF`; `ReadLine` then returns the empty string with a nil error, exactly
what it returns for a successfully read blank line, and the line-reading loop has
not returned after any number of iterations and has pushed nothing. -/
theorem readLine_eof_counterexample :
    ReadLine { line := "", err := some ReadErr.eof } = ("", none)
    ∧ ReadLine { line := "\n", err := none } = ("", none)
    ∧ ∀ fuel : Nat, readLoop closedConn fuel 0 [] = ([], false) := by
  refine ⟨by decide, by decide, ?_⟩
  have h : ∀ (fuel k : Nat), readLoop closedConn fuel k [] = ([], false) := by
    intro fuel
    induction fuel with
    | zero => intro k; rfl
    | succ fuel ih =>
      intro k
      rw [readLoop_succ]
      exact ih (k + 1)
  intro fuel
  exact h fuel 0

/-- C6 (amended). When the buffered read returns end-of-stream, `ReadLine` returns
the trimmed data read so far together with a nil error, the same kind of outcome
as for a successfully read line. `ReadLine` returns a non-nil error exactly when
the buffered read failed with an error other than end-of-stream. The line-reading
loop of `RunMining` returns at the first read that fails with such an error and not
before: as long as every read so far succeeded or returned end-of-stream, the loop
is still running. -/
theorem readLine_error_iff (reads : Nat → ReadResult) (n : Nat) (msg : String)
    (herr : (reads n).err = some (ReadErr.other msg))
    (hbefore : ∀ j, j < n → ∀ m, (reads j).err ≠ some (ReadErr.other m)) :
    (∀ r : ReadResult, r.err = some ReadErr.eof → ReadLine r = (trimSpace r.line, none))
    ∧ (∀ r : ReadResult, r.err = none → ReadLine r = (trimSpace r.line, none))
    ∧ (∀ r : ReadResult, (ReadLine r).2 ≠ none ↔ ∃ m, r.err = some (ReadErr.other m))
    ∧ (∀ fuel, fuel ≤ n → (readLoop reads fuel 0 []).2 = false)
    ∧ (readLoop reads (n + 1) 0 []).2 = true
    ∧ (∀ fuel, n + 1 ≤ fuel → readLoop reads fuel 0 [] = readLoop reads (n + 1) 0 []) := by
  have hnone : ∀ j, j < n → (ReadLine (reads (0 + j))).2 = none := by
    intro j hj
    rw [Nat.zero_add, ReadLine_err]
    have hb := hbefore j hj
    rcases he : (reads j).err with _ | e
    · rfl
    · cases e with
      | eof => rfl
      | other m => exact absurd he (hb m)
  have hlast : (ReadLine (reads (0 + n))).2 ≠ none := by
    rw [Nat.zero_add, ReadLine_err, herr]
    simp
  refine ⟨?_, ?_, ?_, ?_, ?_, ?_⟩
  · intro r hr
    simp [ReadLine, hr]
  · intro r hr
    simp [ReadLine, hr]
  · intro r
    rw [ReadLine_err]
    constructor
    · intro h
      rcases he : r.err with _ | e
      · rw [he] at h; exact absurd rfl h
      · cases e with
        | eof => rw [he] at h; exact absurd rfl h
        | other m => exact ⟨m, rfl⟩
    · rintro ⟨m, hm⟩
      rw [hm]
      simp
  · intro fuel hle
    apply readLoop_running
    intro j hj
    exact hnone j (Nat.lt_of_lt_of_le hj hle)
  · exact readLoop_returns reads n 0 [] hnone hlast
  · intro fuel hle
    obtain ⟨extra, rfl⟩ := Nat.exists_eq_add_of_le hle
    exact readLoop_stable reads n extra 0 [] hnone hlast

/-- C6 (witness): on a connection that delivers one job line and one blank line and
then fails with a reset, the loop is still running after two reads and has returned
after the third, having pushed the job line only. -/
theorem readLine_error_iff_witness :
    (∀ fuel, fuel ≤ 2 → (readLoop resetConn fuel 0 []).2 = false)
    ∧ (readLoop resetConn 3 0 []).2 = true
    ∧ (readLoop resetConn 3 0 []).1 = [sampleNotifyLine]
    ∧ (ReadLine (resetConn 2)).2 = some (ReadErr.other "connection reset by peer") :=
  ⟨(readLine_error_iff resetConn 2 "connection reset by peer" rfl (by
      intro j hj m
      match j, hj with
      | 0, _ => simp [resetConn]
      | 1, _ => simp [resetConn])).2.2.2.1,
   (readLine_error_iff resetConn 2 "connection reset by peer" rfl (by
      intro j hj m
      match j, hj with
      | 0, _ => simp [resetConn]
      | 1, _ => simp [resetConn])).2.2.2.2.1, by decide, by decide⟩

/-! ## Job replacement -/

theorem modify_length_append {α : Type} (f : α → α) (old : List α) (x : α) (rest : List α) :
    List.modify f old.length (old ++ x :: rest) = old ++ f x :: rest := by
  induction old with
  | nil => simp
  | cons a old ih => simp [ih]

theorem cancelOld_of_inv (s : RouterState) (h : RouterInv s) :
    (∀ g ∈ (cancelOld s).generations, g.cancelled = true)
    ∧ (cancelOld s).generations.length = s.generations.length
    ∧ (cancelOld s).difficulty = s.difficulty ∧ (cancelOld s).target = s.target
    ∧ (cancelOld s).stats = s.stats := by
  rcases h with ⟨hg, hc⟩ | ⟨old, last, hg, hold, hc⟩
  · simp [cancelOld, hc, hg]
  · simp only [cancelOld, hc, cancelCtx, hg, modify_length_append]
    refine ⟨?_, by simp, trivial, trivial, trivial⟩
    intro g hgm
    rcases List.mem_append.mp hgm with h1 | h1
    · exact hold g h1
    · rw [List.mem_singleton] at h1
      rw [h1]

theorem goMineWorker_last (ctx t : Nat) (job : MiningJob) (s : RouterState)
    (old : List Generation) (g : Generation)
    (hg : s.generations = old ++ [g]) (hctx : ctx = old.length) :
    goMineWorker ctx t job s
      = { s with generations :=
            old ++ [{ g with workers := g.workers ++ [{ threadID := t, job := job }] }] } := by
  simp only [goMineWorker, hg, hctx, modify_length_append]

theorem spawnLoop_last (ctx : Nat) (job : MiningJob) (n : Nat) :
    ∀ (t : Nat) (s : RouterState) (old : List Generation) (g : Generation),
      s.generations = old ++ [g] → ctx = old.length →
      spawnLoop ctx job n t s
        = { s with generations :=
              old ++ [{ g with workers :=
                g.workers ++ (List.range' t n).map (fun k => { threadID := k, job := job }) }] } := by
  induction n with
  | zero =>
    intro t s old g hg _
    simp [spawnLoop, List.range', ← hg]
  | succ n ih =>
    intro t s old g hg hctx
    rw [spawnLoop, goMineWorker_last ctx t job s old g hg hctx]
    rw [ih (t + 1) _ old _ rfl hctx]
    simp [List.range']

theorem startJob_eq (numThreads : Nat) (jobID : String) (ts hh : List Nat) (s : RouterState) :
    startJob numThreads jobID ts hh s
      = { difficulty := (cancelOld s).difficulty
          target := (cancelOld s).target
          cancelMining := some (cancelOld s).generations.length
          currentJob := some { jobID := jobID, timestamp := ts, headerHash := hh,
                               target := (cancelOld s).target }
          stats := (cancelOld s).stats
          generations := (cancelOld s).generations
            ++ [{ cancelled := false
                  workers := workersFor numThreads
                    { jobID := jobID, timestamp := ts, headerHash := hh,
                      target := (cancelOld s).target } }] } := by
  unfold startJob
  simp only [withCancel]
  rw [spawnLoop_last _ _ numThreads 0 _ (cancelOld s).generations
    { cancelled := false, workers := [] } rfl rfl]
  simp [workersFor, List.range_eq_range']

theorem cancelOld_frame (s : RouterState) :
    (cancelOld s).difficulty = s.difficulty ∧ (cancelOld s).target = s.target
    ∧ (cancelOld s).stats = s.stats := by
  unfold cancelOld
  split <;> exact ⟨rfl, rfl, rfl⟩

theorem startJob_inv (numThreads : Nat) (jobID : String) (ts hh : List Nat) (s : RouterState)
    (h : RouterInv s) : RouterInv (startJob numThreads jobID ts hh s) := by
  rw [startJob_eq]
  exact Or.inr ⟨_, _, rfl, (cancelOld_of_inv s h).1, rfl⟩

theorem liveGenerations_of_inv (s : RouterState) (h : RouterInv s) :
    (liveGenerations s).length ≤ 1 := by
  rcases h with ⟨hg, _⟩ | ⟨old, last, hg, hold, _⟩
  · simp [liveGenerations, hg]
  · have h0 : old.filter (fun g => !g.cancelled) = [] := by
      rw [List.filter_eq_nil_iff]
      intro g hgm
      simp [hold g hgm]
    simp only [liveGenerations, hg, List.filter_append, h0, List.nil_append]
    exact List.length_filter_le _ _

theorem startJob_live (numThreads : Nat) (jobID : String) (ts hh : List Nat) (s : RouterState)
    (h : RouterInv s) :
    liveGenerations (startJob numThreads jobID ts hh s)
      = [{ cancelled := false
           workers := workersFor numThreads
             { jobID := jobID, timestamp := ts, headerHash := hh, target := s.target } }] := by
  rw [startJob_eq]
  have h0 : (cancelOld s).generations.filter (fun g => !g.cancelled) = [] := by
    rw [List.filter_eq_nil_iff]
    intro g hgm
    simp [(cancelOld_of_inv s h).1 g hgm]
  simp only [liveGenerations, List.filter_append, h0, List.nil_append]
  simp [(cancelOld_frame s).2.1]

theorem handleSubmitResult_frame (env : Env) (line : String) (s : RouterState) :
    (handleSubmitResult env line s).generations = s.generations
    ∧ (handleSubmitResult env line s).cancelMining = s.cancelMining
    ∧ (handleSubmitResult env line s).currentJob = s.currentJob
    ∧ (handleSubmitResult env line s).difficulty = s.difficulty
    ∧ (handleSubmitResult env line s).target = s.target := by
  unfold handleSubmitResult
  split
  · exact ⟨rfl, rfl, rfl, rfl, rfl⟩
  · split <;> exact ⟨rfl, rfl, rfl, rfl, rfl⟩

theorem handleSetDifficulty_frame (env : Env) (line : String) (s s1 : RouterState)
    (h : handleSetDifficulty env line s = some s1) :
    s1.generations = s.generations ∧ s1.cancelMining = s.cancelMining
    ∧ s1.currentJob = s.currentJob ∧ s1.stats = s.stats := by
  unfold handleSetDifficulty at h
  split at h
  · cases h; exact ⟨rfl, rfl, rfl, rfl⟩
  · split at h
    · simp only [] at h
      split at h
      · cases h
      · cases h; exact ⟨rfl, rfl, rfl, rfl⟩
    · cases h; exact ⟨rfl, rfl, rfl, rfl⟩

theorem handleNotify_cases (env : Env) (line : String) (s : RouterState) :
    handleNotify env line s = s
    ∨ ∃ (jobID : String) (ts hh : List Nat),
        handleNotify env line s = startJob env.numThreads jobID ts hh s := by
  unfold handleNotify
  split
  · exact Or.inl rfl
  · split
    · simp only []
      split
      · exact Or.inl rfl
      · split
        · exact Or.inl rfl
        · exact Or.inr ⟨_, _, _, rfl⟩
    · exact Or.inl rfl

theorem processLine_cases (env : Env) (s s1 : RouterState) (line : String)
    (h : processLine env s line = some s1) :
    (s1.generations = s.generations ∧ s1.cancelMining = s.cancelMining
      ∧ s1.currentJob = s.currentJob)
    ∨ ∃ (jobID : String) (ts hh : List Nat), s1 = startJob env.numThreads jobID ts hh s := by
  unfold processLine at h
  split at h
  · cases h
    have hf := handleSubmitResult_frame env line s
    exact Or.inl ⟨hf.1, hf.2.1, hf.2.2.1⟩
  · split at h
    · have hf := handleSetDifficulty_frame env line s s1 h
      exact Or.inl ⟨hf.1, hf.2.1, hf.2.2.1⟩
    · split at h
      · cases h
        rcases handleNotify_cases env line s with h1 | ⟨jobID, ts, hh, h1⟩
        · rw [h1]; exact Or.inl ⟨rfl, rfl, rfl⟩
        · exact Or.inr ⟨jobID, ts, hh, h1⟩
      · cases h
        exact Or.inl ⟨rfl, rfl, rfl⟩

theorem processLine_inv (env : Env) (s s1 : RouterState) (line : String)
    (h : processLine env s line = some s1) (hinv : RouterInv s) : RouterInv s1 := by
  rcases processLine_cases env s s1 line h with ⟨hg, hc, _⟩ | ⟨jobID, ts, hh, h1⟩
  · unfold RouterInv at hinv ⊢
    rw [hg, hc]
    exact hinv
  · rw [h1]
    exact startJob_inv _ _ _ _ s hinv

theorem routerLoop_inv (env : Env) (lines : List String) :
    ∀ s : RouterState, RouterInv s → RouterInv (routerLoop env s lines).1 := by
  induction lines with
  | nil => intro s h; exact h
  | cons line rest ih =>
    intro s h
    unfold routerLoop
    split
    · exact h
    · rename_i s1 hs1
      exact ih s1 (processLine_inv env s s1 line hs1 h)

/-- C8. The router is a step function on the current job and the list of worker
generations, each with its cancellation flag. Started from the initial state of
`RunMining`, after any sequence of inbound lines at most one generation is not
cancelled. In any such state, the notify branch first cancels the previous context
(after `cancelOld` every existing generation is cancelled), only then creates the
new context and starts the workers, and afterwards the live generations are exactly
one: `numThreads` workers with thread indices `0 .. numThreads-1`, all bound to the
new job, which is also the current job. A line changes the generations only by
that branch. -/
theorem job_replacement (env : Env) (startTime : Nat) :
    ∃ s0, routerInit startTime = some s0 ∧ ∀ lines : List String,
      (liveGenerations (routerLoop env s0 lines).1).length ≤ 1
      ∧ (∀ (jobID : String) (ts hh : List Nat),
          (∀ g ∈ (cancelOld (routerLoop env s0 lines).1).generations, g.cancelled = true)
          ∧ startJob env.numThreads jobID ts hh (routerLoop env s0 lines).1
              = spawnLoop (cancelOld (routerLoop env s0 lines).1).generations.length
                  { jobID := jobID, timestamp := ts, headerHash := hh,
                    target := (routerLoop env s0 lines).1.target }
                  env.numThreads 0
                  { (withCancel (cancelOld (routerLoop env s0 lines).1)).2 with
                    currentJob := some { jobID := jobID, timestamp := ts, headerHash := hh,
                                         target := (routerLoop env s0 lines).1.target } }
          ∧ liveGenerations (startJob env.numThreads jobID ts hh (routerLoop env s0 lines).1)
              = [{ cancelled := false
                   workers := (List.range env.numThreads).map (fun t =>
                     { threadID := t
                       job := { jobID := jobID, timestamp := ts, headerHash := hh,
                                target := (routerLoop env s0 lines).1.target } }) }]
          ∧ (startJob env.numThreads jobID ts hh (routerLoop env s0 lines).1).currentJob
              = some { jobID := jobID, timestamp := ts, headerHash := hh,
                       target := (routerLoop env s0 lines).1.target })
      ∧ (∀ (line : String) (s1 : RouterState),
          processLine env (routerLoop env s0 lines).1 line = some s1 →
          (s1.generations = (routerLoop env s0 lines).1.generations
            ∧ s1.cancelMining = (routerLoop env s0 lines).1.cancelMining
            ∧ s1.currentJob = (routerLoop env s0 lines).1.currentJob)
          ∨ ∃ (jobID : String) (ts hh : List Nat),
              s1 = startJob env.numThreads jobID ts hh (routerLoop env s0 lines).1) := by
  refine ⟨_, routerInit_eq startTime, ?_⟩
  intro lines
  have hinv := routerLoop_inv env lines _ (Or.inl ⟨rfl, rfl⟩ : RouterInv
    { difficulty := 1, target := 2 ^ 256, cancelMining := none, currentJob := none,
      stats := { hashCount := 0, shareFound := 0, shareAccept := 0, shareReject := 0,
                 startTime := startTime },
      generations := [] })
  refine ⟨liveGenerations_of_inv _ hinv, ?_, ?_⟩
  · intro jobID ts hh
    refine ⟨(cancelOld_of_inv _ hinv).1, ?_, ?_, ?_⟩
    · unfold startJob
      simp only [withCancel, (cancelOld_frame _).2.1]
    · rw [startJob_live _ _ _ _ _ hinv]
      rfl
    · rw [startJob_eq]
      simp only [(cancelOld_frame _).2.1]
  · intro line s1 h
    exact processLine_cases env _ s1 line h

/-! ## Routing of new-job and difficulty messages -/

theorem processLine_notify (env : Env) (s : RouterState) (line : String)
    (hsub : stringsContains line submitMarker = false)
    (hdiff : stringsContains line difficultyMarker = false)
    (hnot : stringsContains line notifyMarker = true) :
    processLine env s line = some (handleNotify env line s) := by
  simp [processLine, hsub, hdiff, hnot]

theorem handleNotify_ok (env : Env) (s : RouterState) (line : String) (m : MethodMsg)
    (jobID tsHex hhHex : String) (rest : List JValue) (ts hh : List Nat)
    (hm : env.unmarshalMsg line = some m)
    (hp : m.Params = JValue.str jobID :: JValue.str tsHex :: JValue.str hhHex :: rest)
    (hts : hexDecodeString tsHex = some ts) (hhh : hexDecodeString hhHex = some hh) :
    handleNotify env line s = startJob env.numThreads jobID ts hh s := by
  simp [handleNotify, hm, hp, JValue.assertString, hts, hhh]

theorem startJob_currentJob (numThreads : Nat) (jobID : String) (ts hh : List Nat)
    (s : RouterState) :
    (startJob numThreads jobID ts hh s).currentJob
        = some { jobID := jobID, timestamp := ts, headerHash := hh, target := s.target }
    ∧ (startJob numThreads jobID ts hh s).difficulty = s.difficulty
    ∧ (startJob numThreads jobID ts hh s).target = s.target
    ∧ (startJob numThreads jobID ts hh s).stats = s.stats := by
  rw [startJob_eq]
  simp only [(cancelOld_frame s).1, (cancelOld_frame s).2.1, (cancelOld_frame s).2.2]
  simp

/-- C7 (counterexample). Three lines that are valid new-job messages (method
`mining.notify`, three string parameters, hex-decodable timestamp and header hash)
and are not classified as new-job: one whose top-level `id` is 4 is handled as a
submit result (the accepted counter goes up, no job is set); one written with a
blank after the colon matches no marker and is dropped; one with a further
top-level field containing the set_difficulty marker is handled as a difficulty
change and sets no job. -/
theorem notify_routing_counterexample :
    (sampleEnv.unmarshalMsg notifyWithId4Line = some sampleNotifyMsg
      ∧ sampleEnv.unmarshalMsg notifySpacedLine = some sampleNotifyMsg
      ∧ sampleEnv.unmarshalMsg notifyWithExtraLine = some sampleNotifyMsg
      ∧ sampleNotifyMsg.Method = "mining.notify"
      ∧ hexDecodeString "0000018f2b3c4d5e" = some [0, 0, 1, 143, 43, 60, 77, 94]
      ∧ hexDecodeString "00ff" = some [0, 255])
    ∧ processLine sampleEnv sampleState notifyWithId4Line
        = some { sampleState with stats := { sampleState.stats with shareAccept := 1 } }
    ∧ processLine sampleEnv sampleState notifySpacedLine = some sampleState
    ∧ processLine sampleEnv sampleState notifyWithExtraLine = some sampleState
    ∧ sampleState.currentJob = none := by
  refine ⟨⟨rfl, rfl, rfl, rfl, by decide, by decide⟩, ?_, ?_, ?_, rfl⟩
  · decide
  · decide
  · decide

/-- C7 (amended). For every inbound line whose text contains the marker
`"method":"mining.notify"` and contains neither `"id":4` nor
`"method":"mining.set_difficulty"`, and which decodes to at least three positional
parameters, a string job id, a hex-decodable timestamp and a hex-decodable header
hash, the router takes the new-job branch and replaces the current job with the job
made of the given id, the decoded timestamp and header hash, and a snapshot of the
process-wide target in effect at that moment. -/
theorem notify_builds_job (env : Env) (s : RouterState) (line : String) (m : MethodMsg)
    (jobID tsHex hhHex : String) (rest : List JValue) (ts hh : List Nat)
    (hsub : stringsContains line submitMarker = false)
    (hdiff : stringsContains line difficultyMarker = false)
    (hnot : stringsContains line notifyMarker = true)
    (hm : env.unmarshalMsg line = some m)
    (hp : m.Params = JValue.str jobID :: JValue.str tsHex :: JValue.str hhHex :: rest)
    (hts : hexDecodeString tsHex = some ts) (hhh : hexDecodeString hhHex = some hh) :
    ∃ s1, processLine env s line = some s1
      ∧ s1 = startJob env.numThreads jobID ts hh s
      ∧ s1.currentJob
          = some { jobID := jobID, timestamp := ts, headerHash := hh, target := s.target }
      ∧ s1.target = s.target ∧ s1.difficulty = s.difficulty := by
  refine ⟨_, processLine_notify env s line hsub hdiff hnot, ?_, ?_, ?_, ?_⟩
  · exact handleNotify_ok env s line m jobID tsHex hhHex rest ts hh hm hp hts hhh
  · rw [handleNotify_ok env s line m jobID tsHex hhHex rest ts hh hm hp hts hhh]
    exact (startJob_currentJob _ _ _ _ s).1
  · rw [handleNotify_ok env s line m jobID tsHex hhHex rest ts hh hm hp hts hhh]
    exact (startJob_currentJob _ _ _ _ s).2.2.1
  · rw [handleNotify_ok env s line m jobID tsHex hhHex rest ts hh hm hp hts hhh]
    exact (startJob_currentJob _ _ _ _ s).2.1

/-- C7 (witness): the sample new-job line in the initial router state. -/
theorem notify_builds_job_witness :
    ∃ s1, processLine sampleEnv sampleState sampleNotifyLine = some s1
      ∧ s1 = startJob 4 "job1" [0, 0, 1, 143, 43, 60, 77, 94] [0, 255] sampleState
      ∧ s1.currentJob
          = some { jobID := "job1", timestamp := [0, 0, 1, 143, 43, 60, 77, 94],
                   headerHash := [0, 255], target := 2 ^ 256 }
      ∧ s1.target = 2 ^ 256 ∧ s1.difficulty = 1 :=
  notify_builds_job sampleEnv sampleState sampleNotifyLine sampleNotifyMsg
    "job1" "0000018f2b3c4d5e" "00ff" [] [0, 0, 1, 143, 43, 60, 77, 94] [0, 255]
    (by decide) (by decide) (by decide) rfl rfl (by decide) (by decide)

theorem uint64OfFloat_pos (impl : ℚ → Nat) (v : ℚ) (h1 : 1 ≤ v)
    (hfit : 2 ^ 64 ≤ v → impl v % U64 ≠ 0) : 1 ≤ uint64OfFloat impl v := by
  have h0 : (0 : ℚ) ≤ v := le_trans zero_le_one h1
  have hfl : truncRat v = ⌊v⌋ := by
    unfold truncRat
    rw [if_pos h0]
    rfl
  have hge : (1 : Int) ≤ ⌊v⌋ := Int.le_floor.mpr (by exact_mod_cast h1)
  unfold uint64OfFloat
  rw [hfl]
  by_cases hlt : ⌊v⌋ < 2 ^ 64
  · rw [if_pos ⟨by omega, hlt⟩]
    omega
  · rw [if_neg (fun h => hlt h.2)]
    have hbig : (2 : ℚ) ^ 64 ≤ v := by
      have h2 : ((2 ^ 64 : Int) : ℚ) ≤ v :=
        le_trans (by exact_mod_cast (not_lt.mp hlt)) (Int.floor_le v)
      exact_mod_cast h2
    exact Nat.one_le_iff_ne_zero.mpr (hfit hbig)

theorem uint64OfFloat_small (impl : ℚ → Nat) (v : ℚ) (h1 : -1 < v) (h2 : v < 1) :
    uint64OfFloat impl v = 0 := by
  have ht : truncRat v = 0 := by
    unfold truncRat
    by_cases h0 : 0 ≤ v
    · rw [if_pos h0]
      show ⌊v⌋ = 0
      rw [Int.floor_eq_iff]
      exact ⟨by exact_mod_cast h0, by simpa using h2⟩
    · rw [if_neg h0]
      show -⌊-v⌋ = 0
      have : ⌊-v⌋ = 0 := by
        rw [Int.floor_eq_iff]
        constructor
        · have := not_le.mp h0
          simp only [Int.cast_zero]
          linarith
        · simp only [Int.cast_zero]
          linarith
      rw [this]
      rfl
  unfold uint64OfFloat
  rw [ht]
  simp

theorem modify_map_eq {α β : Type} (f : α → α) (g : α → β) (hfg : ∀ a, g (f a) = g a)
    (l : List α) : ∀ n : Nat, (List.modify f n l).map g = l.map g := by
  induction l with
  | nil => intro n; simp
  | cons a l ih =>
    intro n
    cases n with
    | zero => simp [hfg]
    | succ n => simp [ih n]

theorem cancelOld_workers (s : RouterState) :
    (cancelOld s).generations.map Generation.workers = s.generations.map Generation.workers := by
  unfold cancelOld
  split
  · rfl
  · simp only [cancelCtx]
    exact modify_map_eq (fun g : Generation => { g with cancelled := true })
      Generation.workers (fun _ => rfl) s.generations _

/-- C5 (code at the failing input). A `mining.set_difficulty` line carrying 0 makes
the router panic (division by zero in `target.Div`): the step has no successor
state, the loop stops and a job line that follows is never processed. The same
holds for every parameter strictly between -1 and 1, which `uint64(d)`
truncates to 0. -/
theorem set_difficulty_zero_panics :
    processLine sampleEnv sampleState zeroDifficultyLine = none
    ∧ routerLoop sampleEnv sampleState [zeroDifficultyLine, sampleNotifyLine]
        = (sampleState, true)
    ∧ ∀ (env : Env) (s : RouterState) (line : String) (m : MethodMsg) (v : ℚ)
        (rest : List JValue),
        stringsContains line submitMarker = false →
        stringsContains line difficultyMarker = true →
        env.unmarshalMsg line = some m → m.Params = JValue.num v :: rest →
        -1 < v → v < 1 → processLine env s line = none := by
  refine ⟨by decide, by decide, ?_⟩
  intro env s line m v rest hsub hdiff hm hp h1 h2
  rw [processLine_difficulty env s line hsub hdiff]
  simp [handleSetDifficulty, hm, hp, uint64OfFloat_small _ v h1 h2, bigDiv]

/-- C10 (counterexample). A `mining.set_difficulty` message with parameter 1000
whose line contains `"id":4` is handled as a submit result: the accepted-share
counter goes up and difficulty and target keep their old values. And on a platform
whose conversion `uint64(d)` yields 0 for a parameter of `2^64`, the difficulty
change with that parameter ends in the division-by-zero panic. -/
theorem set_difficulty_frame_counterexample :
    (sampleEnv.unmarshalMsg difficultyWithId4Line
        = some { Method := "mining.set_difficulty", Params := [JValue.num ((1000 : Nat) : ℚ)] }
      ∧ processLine sampleEnv sampleState difficultyWithId4Line
        = some { sampleState with stats := { sampleState.stats with shareAccept := 1 } }
      ∧ sampleState.stats.shareAccept = 0
      ∧ sampleState.difficulty = 1 ∧ sampleState.target = 2 ^ 256)
    ∧ ∀ (env : Env) (s : RouterState) (line : String) (m : MethodMsg) (rest : List JValue),
        stringsContains line submitMarker = false →
        stringsContains line difficultyMarker = true →
        env.unmarshalMsg line = some m →
        m.Params = JValue.num (((2 : Nat) ^ 64 : Nat) : ℚ) :: rest →
        env.floatToUint64 (((2 : Nat) ^ 64 : Nat) : ℚ) % U64 = 0 →
        processLine env s line = none := by
  refine ⟨⟨rfl, by decide, rfl, rfl, rfl⟩, ?_⟩
  intro env s line m rest hsub hdiff hm hp h0
  have hz : uint64OfFloat env.floatToUint64 (((2 : Nat) ^ 64 : Nat) : ℚ) = 0 := by
    unfold uint64OfFloat
    rw [truncRat_natCast]
    have hn : ¬ ((0 : Int) ≤ (((2 : Nat) ^ 64 : Nat) : Int)
        ∧ (((2 : Nat) ^ 64 : Nat) : Int) < 2 ^ 64) := by
      norm_num
    rw [if_neg hn]
    exact h0
  rw [processLine_difficulty env s line hsub hdiff]
  simp only [handleSetDifficulty, hm, hp, bigDiv, hz, if_true]

/-- C10 (amended). A line that the router handles as a difficulty change (its text
contains `"method":"mining.set_difficulty"` and does not contain `"id":4`), with a
parameter `d ≥ 1` that the conversion `uint64(d)` does not turn into 0 (it never
does for `d < 2^64`, where the result is the integer part of `d`), changes only the
process-wide difficulty and target: the current job with its captured target, the
stored cancel function, every worker generation (so no worker is cancelled or
spawned) and all statistics counters are unchanged. The new target is observed only
by the job that the new-job branch builds afterwards: whatever line comes next, the
current job either stays the same or is a new job carrying the new target, and the
workers started before keep their jobs. -/
theorem set_difficulty_frame (env : Env) (s : RouterState) (line : String) (m : MethodMsg)
    (v : ℚ) (rest : List JValue)
    (hsub : stringsContains line submitMarker = false)
    (hdiff : stringsContains line difficultyMarker = true)
    (hm : env.unmarshalMsg line = some m) (hp : m.Params = JValue.num v :: rest)
    (h1 : 1 ≤ v) (hfit : 2 ^ 64 ≤ v → env.floatToUint64 v % U64 ≠ 0) :
    ∃ s1, processLine env s line = some s1
      ∧ s1.currentJob = s.currentJob ∧ s1.cancelMining = s.cancelMining
      ∧ s1.generations = s.generations ∧ s1.stats = s.stats
      ∧ s1.difficulty = uint64OfFloat env.floatToUint64 v
      ∧ 1 ≤ s1.difficulty
      ∧ s1.target = 2 ^ 256 / s1.difficulty
      ∧ (v < 2 ^ 64 → s1.difficulty = (Rat.floor v).toNat)
      ∧ (∀ (jobID : String) (ts hh : List Nat),
          (startJob env.numThreads jobID ts hh s1).currentJob
              = some { jobID := jobID, timestamp := ts, headerHash := hh,
                       target := 2 ^ 256 / s1.difficulty }
          ∧ ((startJob env.numThreads jobID ts hh s1).generations.take
                s.generations.length).map Generation.workers
              = s.generations.map Generation.workers)
      ∧ (∀ (line2 : String) (s2 : RouterState), processLine env s1 line2 = some s2 →
          s2.currentJob = s.currentJob
          ∨ ∃ (jobID : String) (ts hh : List Nat),
              s2.currentJob = some { jobID := jobID, timestamp := ts, headerHash := hh,
                                     target := 2 ^ 256 / s1.difficulty }) := by
  have hd := uint64OfFloat_pos env.floatToUint64 v h1 hfit
  refine ⟨{ s with difficulty := uint64OfFloat env.floatToUint64 v
                   target := 2 ^ 256 / uint64OfFloat env.floatToUint64 v },
    ?_, rfl, rfl, rfl, rfl, rfl, hd, rfl, ?_, ?_, ?_⟩
  · rw [processLine_difficulty env s line hsub hdiff]
    exact handleSetDifficulty_ok env s line m v rest hm hp hd
  · intro h2
    exact (uint64OfFloat_of_range env.floatToUint64 v h1 h2).1
  · intro jobID ts hh
    refine ⟨(startJob_currentJob _ _ _ _ _).1, ?_⟩
    rw [startJob_eq]
    simp only []
    have hlen : (cancelOld { s with difficulty := uint64OfFloat env.floatToUint64 v
                                    target := 2 ^ 256 / uint64OfFloat env.floatToUint64 v
                            }).generations.length = s.generations.length := by
      unfold cancelOld
      split
      · rfl
      · simp [cancelCtx]
    rw [List.take_left' hlen, cancelOld_workers]
  · intro line2 s2 h
    rcases processLine_cases env _ s2 line2 h with ⟨_, _, hj⟩ | ⟨jobID, ts, hh, h2⟩
    · exact Or.inl hj
    · refine Or.inr ⟨jobID, ts, hh, ?_⟩
      rw [h2]
      exact (startJob_currentJob _ _ _ _ _).1

/-- C10 (witness): the sample difficulty change to 1000 arriving while the four
workers of job `job1` run: job and workers are untouched, difficulty and target
change, and the job started next captures the new target. -/
theorem set_difficulty_frame_witness :
    ∃ s1, processLine sampleEnv (startJob 4 "job1" [0, 0, 1, 143, 43, 60, 77, 94] [0, 255]
          sampleState) sampleDifficultyLine = some s1
      ∧ s1.currentJob = some { jobID := "job1", timestamp := [0, 0, 1, 143, 43, 60, 77, 94],
                               headerHash := [0, 255], target := 2 ^ 256 }
      ∧ s1.generations
          = [{ cancelled := false
               workers := workersFor 4
                 { jobID := "job1", timestamp := [0, 0, 1, 143, 43, 60, 77, 94],
                   headerHash := [0, 255], target := 2 ^ 256 } }]
      ∧ s1.difficulty = 1000 ∧ s1.target = 2 ^ 256 / 1000
      ∧ (startJob 4 "job2" [0, 0, 1, 143, 43, 60, 77, 95] [161, 178] s1).currentJob
          = some { jobID := "job2", timestamp := [0, 0, 1, 143, 43, 60, 77, 95],
                   headerHash := [161, 178], target := 2 ^ 256 / 1000 } := by
  obtain ⟨s1, h1, h2, _, h4, _, h6, _, h7, _, h9, _⟩ :=
    set_difficulty_frame sampleEnv
      (startJob 4 "job1" [0, 0, 1, 143, 43, 60, 77, 94] [0, 255] sampleState)
      sampleDifficultyLine
      { Method := "mining.set_difficulty", Params := [JValue.num ((1000 : Nat) : ℚ)] }
      ((1000 : Nat) : ℚ) []
      (by decide) (by decide) rfl rfl (by norm_num)
      (fun h => absurd h (by norm_num))
  have hd : uint64OfFloat sampleEnv.floatToUint64 ((1000 : Nat) : ℚ) = 1000 :=
    uint64OfFloat_natCast _ 1000 (by norm_num)
  have h6b : s1.difficulty = 1000 := by rw [h6, hd]
  have h9b := (h9 "job2" [0, 0, 1, 143, 43, 60, 77, 95] [161, 178]).1
  rw [h6b] at h7 h9b
  refine ⟨s1, h1, ?_, ?_, h6b, h7, h9b⟩
  · rw [h2]; decide
  · rw [h4]; decide

/-! ## Hash counting -/

section HashCount

variable {Pad : Type} (hash : List Nat → Pad → List Nat × Pad) (threadID : Nat)
  (job : MiningJob) (session : SessionInfo) (worker : String)

theorem addedHashes_append (a b : List Call) :
    addedHashes (a ++ b) = addedHashes a ++ addedHashes b := by
  induction a with
  | nil => rfl
  | cons c a ih =>
    cases c with
    | addHash n => simp [addedHashes, ih]
    | addShare => simp [addedHashes, ih]
    | send d => simp [addedHashes, ih]

theorem addedHashes_dflt (w : WorkerState Pad) (hw : w.returned = false) :
    addedHashes (mineWorkerStep hash threadID job session worker w Select.dflt).2 = [] := by
  rw [mineWorkerStep_dflt_calls hash threadID job session worker w hw]
  split <;> rfl

theorem mineWorkerRun_returned (evs : List Select) :
    ∀ w : WorkerState Pad, w.returned = true →
      mineWorkerRun hash threadID job session worker w evs = (w, []) := by
  induction evs with
  | nil => intro w _; rfl
  | cons ev evs ih =>
    intro w hw
    rw [mineWorkerRun_cons, mineWorkerStep_returned hash threadID job session worker w ev hw]
    simp only [ih w hw, List.append_nil]

theorem mineWorkerRun_append (a b : List Select) :
    ∀ w : WorkerState Pad,
      mineWorkerRun hash threadID job session worker w (a ++ b)
        = ((mineWorkerRun hash threadID job session worker
              (mineWorkerRun hash threadID job session worker w a).1 b).1,
           (mineWorkerRun hash threadID job session worker w a).2
            ++ (mineWorkerRun hash threadID job session worker
              (mineWorkerRun hash threadID job session worker w a).1 b).2) := by
  induction a with
  | nil => intro w; simp [mineWorkerRun_nil]
  | cons ev a ih =>
    intro w
    rw [List.cons_append, mineWorkerRun_cons, mineWorkerRun_cons, ih]
    simp only [List.append_assoc]

theorem mineWorkerRun_running (evs : List Select) :
    ∀ w : WorkerState Pad, w.returned = false → Select.ctxDone ∉ evs →
      (mineWorkerRun hash threadID job session worker w evs).1.returned = false := by
  induction evs with
  | nil => intro w hw _; exact hw
  | cons ev evs ih =>
    intro w hw hmem
    have hmem2 : Select.ctxDone ∉ evs := fun h => hmem (List.mem_cons_of_mem _ h)
    rw [mineWorkerRun_cons]
    cases ev with
    | ctxDone => exact absurd (List.mem_cons_self _ _) hmem
    | tickerC =>
      rw [mineWorkerStep_tickerC _ _ _ _ _ w hw]
      exact ih _ hw hmem2
    | dflt =>
      rw [mineWorkerStep_dflt_state _ _ _ _ _ w hw]
      exact ih _ rfl hmem2

/-- Without a wrap of the local counter, what has been flushed plus what is pending
is what was pending at the start plus the hash attempts made. -/
theorem mineWorkerRun_added (evs : List Select) :
    ∀ w : WorkerState Pad, w.returned = false → Select.ctxDone ∉ evs →
      noWrap w.hashCount evs = true →
      (addedHashes (mineWorkerRun hash threadID job session worker w evs).2).sum
          + (mineWorkerRun hash threadID job session worker w evs).1.hashCount
        = w.hashCount + evs.count Select.dflt := by
  induction evs with
  | nil => intro w _ _ _; simp [mineWorkerRun_nil, addedHashes]
  | cons ev evs ih =>
    intro w hw hmem hnw
    have hmem2 : Select.ctxDone ∉ evs := fun h => hmem (List.mem_cons_of_mem _ h)
    rw [mineWorkerRun_cons]
    cases ev with
    | ctxDone => exact absurd (List.mem_cons_self _ _) hmem
    | tickerC =>
      rw [mineWorkerStep_tickerC _ _ _ _ _ w hw]
      have h := ih { w with hashCount := 0 } hw hmem2 (by simpa [noWrap] using hnw)
      have e : ∀ X : List Call, addedHashes ([Call.addHash w.hashCount] ++ X)
          = w.hashCount :: addedHashes X := fun _ => rfl
      dsimp only
      rw [e, List.sum_cons, List.count_cons_of_ne (by decide)]
      simp only [Nat.zero_add] at h
      omega
    | dflt =>
      simp only [noWrap, Bool.and_eq_true, decide_eq_true_eq] at hnw
      rw [addedHashes_append, addedHashes_dflt hash threadID job session worker w hw,
        mineWorkerStep_dflt_state _ _ _ _ _ w hw]
      have hmod : (w.hashCount + 1) % U64 = w.hashCount + 1 := Nat.mod_eq_of_lt hnw.1
      have h := ih
        { scratchpad :=
            (hash (minerWork job session
              (putUint64LE (nonceValue threadID ((w.nonceCounter + 1) % U64)))) w.scratchpad).2
          nonce := putUint64LE (nonceValue threadID ((w.nonceCounter + 1) % U64))
          hashCount := (w.hashCount + 1) % U64
          nonceCounter := (w.nonceCounter + 1) % U64
          returned := false } rfl hmem2 (by simp only [hmod]; exact hnw.2)
      simp only [hmod] at h ⊢
      simp only [List.nil_append, List.count_cons_self]
      omega

end HashCount

theorem applyCalls_hashCount (cs : List Call) :
    ∀ stats : MiningStats, stats.hashCount < U64 →
      (stats.applyCalls cs).hashCount = (stats.hashCount + (addedHashes cs).sum) % U64 := by
  have hU : 0 < U64 := by norm_num [U64]
  induction cs with
  | nil =>
    intro stats h
    simp [MiningStats.applyCalls, addedHashes, Nat.mod_eq_of_lt h]
  | cons c cs ih =>
    intro stats h
    cases c with
    | addHash n =>
      have h1 := ih (stats.AddHash n) (Nat.mod_lt _ hU)
      simp only [MiningStats.applyCalls, List.foldl_cons, MiningStats.applyCall] at h1 ⊢
      rw [h1]
      simp only [MiningStats.AddHash, addedHashes, List.sum_cons, Nat.mod_add_mod]
      rw [Nat.add_assoc]
    | addShare =>
      have h1 := ih stats.AddShare h
      simp only [MiningStats.applyCalls, List.foldl_cons, MiningStats.applyCall] at h1 ⊢
      rw [h1]
      rfl
    | send d =>
      have h1 := ih stats h
      simp only [MiningStats.applyCalls, List.foldl_cons, MiningStats.applyCall] at h1 ⊢
      rw [h1]
      rfl

theorem mineWorkerRun_cancel {Pad : Type} (hash : List Nat → Pad → List Nat × Pad)
    (threadID : Nat) (job : MiningJob) (session : SessionInfo) (worker : String)
    (w : WorkerState Pad) (tr more : List Select) (hw : w.returned = false)
    (htr : Select.ctxDone ∉ tr) :
    mineWorkerRun hash threadID job session worker w (tr ++ Select.ctxDone :: more)
      = ({ (mineWorkerRun hash threadID job session worker w tr).1 with returned := true },
         (mineWorkerRun hash threadID job session worker w tr).2
          ++ [Call.addHash (mineWorkerRun hash threadID job session worker w tr).1.hashCount]) := by
  have hrun := mineWorkerRun_running hash threadID job session worker tr w hw htr
  rw [mineWorkerRun_append, mineWorkerRun_cons,
    mineWorkerStep_ctxDone hash threadID job session worker _ hrun]
  dsimp only
  rw [mineWorkerRun_returned hash threadID job session worker more _ rfl]
  simp only [List.append_nil]

/-- C9. One worker run as a sequential step machine: a hash attempt adds 1 to the
local count, a tick adds the local count to the hash counter of the statistics and
resets it, a cancel adds the local count and terminates. For every finite trace of
hash-attempt and tick steps that the worker can produce, followed by a cancel and by
any further events: the amounts the worker passed to `AddHash` sum to the number of
hash attempts it made (none counted twice, none lost); the cancel step flushes the
pending count with exactly one `AddHash` call and terminates the worker; the events
after the cancel cause no step; and the hash counter of the statistics has advanced
by the number of attempts (in `uint64` arithmetic, as `atomic.AddUint64` adds).

The counts are `uint64` values. The hypothesis `noWrap` records the timing of the
loop, which the step machine does not carry: the ticker fires every second and the
`select` takes its default case only while no tick is pending, so the hash attempts
between two flushes are those made within one tick interval, fewer than `2^64`. -/
theorem hash_count_flushed {Pad : Type} (hash : List Nat → Pad → List Nat × Pad)
    (threadID : Nat) (job : MiningJob) (session : SessionInfo) (worker : String) (pad : Pad)
    (tr more : List Select) (htr : Select.ctxDone ∉ tr) (hnw : noWrap 0 tr = true) :
    (addedHashes (mineWorkerRun hash threadID job session worker (mineWorkerInit threadID pad)
        (tr ++ Select.ctxDone :: more)).2).sum = tr.count Select.dflt
    ∧ (mineWorkerRun hash threadID job session worker (mineWorkerInit threadID pad)
        (tr ++ Select.ctxDone :: more)).1.returned = true
    ∧ (mineWorkerRun hash threadID job session worker (mineWorkerInit threadID pad)
        (tr ++ Select.ctxDone :: more)).2
        = (mineWorkerRun hash threadID job session worker (mineWorkerInit threadID pad) tr).2
          ++ [Call.addHash (mineWorkerRun hash threadID job session worker
                (mineWorkerInit threadID pad) tr).1.hashCount]
    ∧ mineWorkerRun hash threadID job session worker (mineWorkerInit threadID pad)
        (tr ++ Select.ctxDone :: more)
        = mineWorkerRun hash threadID job session worker (mineWorkerInit threadID pad)
            (tr ++ [Select.ctxDone])
    ∧ ∀ stats : MiningStats, stats.hashCount < U64 →
        (stats.applyCalls (mineWorkerRun hash threadID job session worker
            (mineWorkerInit threadID pad) (tr ++ Select.ctxDone :: more)).2).hashCount
          = (stats.hashCount + tr.count Select.dflt) % U64 := by
  have hadd := mineWorkerRun_added hash threadID job session worker tr
    (mineWorkerInit threadID pad) rfl htr hnw
  have hsum : (addedHashes (mineWorkerRun hash threadID job session worker
      (mineWorkerInit threadID pad) (tr ++ Select.ctxDone :: more)).2).sum
      = tr.count Select.dflt := by
    rw [mineWorkerRun_cancel hash threadID job session worker _ tr more rfl htr]
    dsimp only
    rw [addedHashes_append]
    simp only [addedHashes, List.sum_append, List.sum_cons, List.sum_nil, Nat.add_zero]
    rw [hadd]
    simp [mineWorkerInit]
  refine ⟨hsum, ?_, ?_, ?_, ?_⟩
  · rw [mineWorkerRun_cancel hash threadID job session worker _ tr more rfl htr]
  · rw [mineWorkerRun_cancel hash threadID job session worker _ tr more rfl htr]
  · rw [mineWorkerRun_cancel hash threadID job session worker _ tr more rfl htr,
      mineWorkerRun_cancel hash threadID job session worker _ tr [] rfl htr]
  · intro stats hs
    rw [applyCalls_hashCount _ stats hs, hsum]

/-- C9 (witness): two attempts, a tick, one attempt, then cancel, followed by two
events that are never executed: 3 hashes are added in total. -/
theorem hash_count_flushed_witness :
    (addedHashes (mineWorkerRun (constHash []) 0 sampleJob sampleSession "rig"
        (mineWorkerInit 0 ())
        ([Select.dflt, Select.dflt, Select.tickerC, Select.dflt]
          ++ Select.ctxDone :: [Select.dflt, Select.tickerC])).2).sum
      = [Select.dflt, Select.dflt, Select.tickerC, Select.dflt].count Select.dflt :=
  (hash_count_flushed (constHash []) 0 sampleJob sampleSession "rig" ()
    [Select.dflt, Select.dflt, Select.tickerC, Select.dflt] [Select.dflt, Select.tickerC]
    (by decide) (by decide)).1

end BernMiner
